import Mathlib

/-!
Verification of the telemetry subsystem of the `tacho` repository
(`src/app/telemetry.py`, `src/app/config.py`).

Embedding conventions:
* Python `str` values are modeled as `List Char`.
* Python `float` values are modeled as `ℚ` (every arithmetic operation the
  code performs on the decoded values is exact at the granularity the claims
  talk about).
* Fallible operations are modeled with `Option` / `Except`.
-/

namespace Tacho

/-! ### Python string primitives used by the source -/

/-- ASCII whitespace recognised by Python's `str.strip()` / `str.split()`. -/
def pyIsSpace (c : Char) : Bool :=
  c = ' ' || c = '\t' || c = '\n' || c = '\r' || c = '\x0b' || c = '\x0c'

/-- `str.strip()` with no arguments. -/
def pyStrip (l : List Char) : List Char :=
  ((l.dropWhile pyIsSpace).reverse.dropWhile pyIsSpace).reverse

/-- `str.upper()` on the ASCII range (all adapter traffic is ASCII). -/
def pyUpperChar (c : Char) : Char :=
  if 'a' ≤ c && c ≤ 'z' then Char.ofNat (c.toNat - 32) else c

/-- `str.split()` with no arguments: split on whitespace runs, drop empties. -/
def pySplitWsAux : List Char → List Char → List (List Char)
  | [], acc => if acc.isEmpty then [] else [acc.reverse]
  | c :: rest, acc =>
    if pyIsSpace c then
      if acc.isEmpty then pySplitWsAux rest []
      else acc.reverse :: pySplitWsAux rest []
    else pySplitWsAux rest (c :: acc)

def pySplitWs (l : List Char) : List (List Char) := pySplitWsAux l []

/-- Value of one hexadecimal digit, as accepted by `int(tok, 16)`. -/
def hexDigitVal (c : Char) : Option Nat :=
  if '0' ≤ c && c ≤ '9' then some (c.toNat - 48)
  else if 'A' ≤ c && c ≤ 'F' then some (c.toNat - 55)
  else if 'a' ≤ c && c ≤ 'f' then some (c.toNat - 87)
  else none

def hexValAux : List Char → Nat → Option Nat
  | [], acc => some acc
  | c :: rest, acc =>
    match hexDigitVal c with
    | some d => hexValAux rest (acc * 16 + d)
    | none => none

/-- `int(tok, 16)` restricted to plain hex-digit tokens, the only token shape
reachable from `parse_pid_bytes` (tokens come from lines matched by
`HEX_LINE_RE`, so they consist of `0-9A-F` only; `None` models `ValueError`). -/
def hexVal : List Char → Option Nat
  | [] => none
  | l => hexValAux l 0

def hexDigitUp (n : Nat) : Char :=
  if n < 10 then Char.ofNat (48 + n) else Char.ofNat (55 + n)

/-- Hex digits of `n`, most significant first; the first argument is fuel
(`n` itself is always enough, since `n / 16 < n` for positive `n`). -/
def toHexAux : Nat → Nat → List Char → List Char
  | 0, _, acc => acc
  | _, 0, acc => acc
  | fuel + 1, n, acc => toHexAux fuel (n / 16) (hexDigitUp (n % 16) :: acc)

/-- Python's `f"{n:02X}"`: uppercase hex, zero-padded to at least two digits. -/
def fmt02X (n : Nat) : List Char :=
  let h := toHexAux n n []
  if h.length = 0 then ['0', '0']
  else if h.length = 1 then '0' :: h
  else h

/-! ### The response parser (`telemetry.py` lines 39–202) -/

/-- `CONTROL_LINES` from the source. -/
def CONTROL_LINES : List (List Char) :=
  ["OK".toList, "NO DATA".toList, "STOPPED".toList, "UNABLE TO CONNECT".toList,
   "BUS INIT...ERROR".toList, "ERROR".toList, "?".toList]

def isHexUpOrSpace (c : Char) : Bool :=
  ('0' ≤ c && c ≤ '9') || ('A' ≤ c && c ≤ 'F') || c = ' '

/-- `HEX_LINE_RE.fullmatch(line)`: non-empty, only `0-9A-F` and spaces. -/
def hexLineMatch (l : List Char) : Bool := !l.isEmpty && l.all isHexUpOrSpace

def chunkPairs : List Char → List (List Char)
  | a :: b :: rest => [a, b] :: chunkPairs rest
  | _ => []

/-- `_split_hex_pairs` from the source. -/
def split_hex_pairs (l : List Char) : List (List Char) :=
  let compact := l.filter (fun c => c ≠ ' ')
  if compact.length % 2 ≠ 0 then [] else chunkPairs compact

/-- Tokenisation step of `parse_pid_bytes`:
`line.split() if " " in line else _split_hex_pairs(line)`. -/
def lineTokens (l : List Char) : List (List Char) :=
  if l.contains ' ' then pySplitWs l else split_hex_pairs l

/-- `[int(token, 16) for token in tokens]`, `none` on a `ValueError`. -/
def decodeTokens : List (List Char) → Option (List Nat)
  | [] => some []
  | t :: rest =>
    match hexVal t with
    | some v =>
      match decodeTokens rest with
      | some vs => some (v :: vs)
      | none => none
    | none => none

/-- Header check and payload decode applied to the token list of a data
line (the tail of the loop body of `parse_pid_bytes`). -/
def tokenPart (expMode expPid : List Char) (tokens : List (List Char)) :
    Option (List Nat) :=
  if tokens.length < 2 then none
  else if !(tokens.headD [] = expMode) || !(tokens.tail.headD [] = expPid) then
    none
  else decodeTokens (tokens.drop 2)

/-- Body of the `for raw_line in ...` loop of `parse_pid_bytes`: the result
produced from one raw line (`none` = the Python `continue`). -/
def lineResult (expMode expPid cmdUp : List Char) (rawLine : List Char) :
    Option (List Nat) :=
  let line := ((pyStrip rawLine).map pyUpperChar).filter (fun c => c ≠ '>')
  if line.isEmpty || line = cmdUp || line.take 9 = "SEARCHING".toList then none
  else if CONTROL_LINES.contains line then none
  else if !hexLineMatch line then none
  else tokenPart expMode expPid (lineTokens line)

/-- `parse_pid_bytes(command, response)` from the source.  The outer `match`
models `int(command[:2], 16)`, which would raise for a malformed command; every
caller passes a fixed four-hex-digit command, so that branch is unreachable. -/
def parse_pid_bytes (command response : List Char) : Option (List Nat) :=
  match hexVal (command.take 2) with
  | none => none
  | some m =>
    let expMode := fmt02X (m + 64)
    let expPid := ((command.drop 2).take 2).map pyUpperChar
    let cmdUp := command.map pyUpperChar
    ((response.map (fun c => if c = '\r' then '\n' else c)).splitOn '\n').findSome?
      (lineResult expMode expPid cmdUp)

/-- Decimal value of a run of digit characters. -/
def digitsVal (ds : List Char) : Nat :=
  ds.foldl (fun a c => a * 10 + (c.toNat - 48)) 0

/-- `parse_voltage(response)`: first match of `\d{1,2}(?:[.,]\d{1,2})?`,
with `,` normalised to `.`; the subsequent `float(...)` cannot fail on this
shape. -/
def parse_voltage : List Char → Option ℚ
  | [] => none
  | c :: rest =>
    if c.isDigit then
      let ds := ((c :: rest).takeWhile Char.isDigit).take 2
      let after := (c :: rest).drop ds.length
      let frac : List Char :=
        match after with
        | p :: d :: _ =>
          if (p = '.' || p = ',') && d.isDigit then
            ((after.drop 1).takeWhile Char.isDigit).take 2
          else []
        | _ => []
      some ((digitsVal ds : ℚ) + (digitsVal frac : ℚ) / (10 ^ frac.length))
    else parse_voltage rest

/-- An uppercase hex digit, the character class of ELM327 data bytes. -/
def isHexUp (c : Char) : Bool := ('0' ≤ c && c ≤ '9') || ('A' ≤ c && c ≤ 'F')

/-- A byte token: exactly two uppercase hex digits. -/
def HexTok (t : List Char) : Prop := t.length = 2 ∧ ∀ c ∈ t, isHexUp c = true

/-- The space-separated form of a sequence of byte tokens (how the adapter
renders a data line with `ATS0` off). -/
def spacedOf : List (List Char) → List Char
  | [] => []
  | [t] => t
  | t :: rest => t ++ ' ' :: spacedOf rest

/-! ### The PID registry (`telemetry.py` lines 22–37) -/

structure PIDDefinition where
  command : List Char
  bytes_needed : Nat
  decoder : List Nat → ℚ

/-- `PID_TABLE` from the source, in the source's (insertion) order. -/
def PID_TABLE : List (String × PIDDefinition) :=
  [("rpm", ⟨"010C".toList, 2, fun d => ((d.headD 0 : ℚ) * 256 + (d.getD 1 0 : ℚ)) / 4⟩),
   ("speed_kmh", ⟨"010D".toList, 1, fun d => (d.headD 0 : ℚ)⟩),
   ("coolant_c", ⟨"0105".toList, 1, fun d => (d.headD 0 : ℚ) - 40⟩),
   ("throttle_pct", ⟨"0111".toList, 1, fun d => ((d.headD 0 : ℚ) * 100) / 255⟩),
   ("engine_load_pct", ⟨"0104".toList, 1, fun d => ((d.headD 0 : ℚ) * 100) / 255⟩),
   ("fuel_level_pct", ⟨"012F".toList, 1, fun d => ((d.headD 0 : ℚ) * 100) / 255⟩),
   ("intake_c", ⟨"010F".toList, 1, fun d => (d.headD 0 : ℚ) - 40⟩)]

/-! ### Python's `round` (decimal round-half-to-even) -/

def halfEvenRound (x : ℚ) : ℤ :=
  if x - (⌊x⌋ : ℚ) < 1/2 then ⌊x⌋
  else if 1/2 < x - (⌊x⌋ : ℚ) then ⌊x⌋ + 1
  else if ⌊x⌋ % 2 = 0 then ⌊x⌋ else ⌊x⌋ + 1

/-- Python's `round(x, n)`. -/
def pyRound (n : Nat) (x : ℚ) : ℚ := (halfEvenRound (x * 10 ^ n) : ℚ) / 10 ^ n

/-! ### The telemetry store (`telemetry.py` lines 52–90)

`updated_at` timestamps (`utc_now_iso()`) are modeled as natural numbers:
the poller's clock is strictly monotone, which the claims take as the
freshness hypothesis. -/

def METRIC_KEYS : List String := PID_TABLE.map Prod.fst ++ ["battery_v"]

structure StoreState where
  connected : Bool
  updated_at : Option Nat
  last_error : Option String
  adapter_host : String
  adapter_port : Nat
  metrics : List (String × Option ℚ)
deriving DecidableEq

/-- `TelemetryStore.__init__`. -/
def initStore (host : String) (port : Nat) : StoreState :=
  { connected := false, updated_at := none, last_error := none,
    adapter_host := host, adapter_port := port,
    metrics := METRIC_KEYS.map (fun k => (k, none)) }

/-- `metric_store[key] = value` guarded by `if key in metric_store`: updates
every entry whose key matches (a dict has at most one) and keeps the dict's
key order; a missing key changes nothing. -/
def setMetric (ms : List (String × Option ℚ)) (k : String) (v : Option ℚ) :
    List (String × Option ℚ) :=
  ms.map (fun kv => if kv.1 = k then (k, v) else kv)

/-- `TelemetryStore.update_metrics(metrics, connected, last_error)`;
`now` is the value `utc_now_iso()` returns during this call. -/
def update_metrics (s : StoreState) (metrics : List (String × Option ℚ))
    (connected : Bool) (last_error : Option String) (now : Nat) : StoreState :=
  { s with
    metrics := metrics.foldl (fun acc kv => setMetric acc kv.1 kv.2) s.metrics,
    connected := connected, last_error := last_error, updated_at := some now }

/-- `TelemetryStore.set_connected(connected, last_error)`. -/
def set_connected (s : StoreState) (connected : Bool)
    (last_error : Option String) (now : Nat) : StoreState :=
  { s with connected := connected, last_error := last_error,
           updated_at := some now }

def metricKeys (s : StoreState) : List String := s.metrics.map Prod.fst

def lookupMetric (s : StoreState) (k : String) : Option (Option ℚ) :=
  s.metrics.lookup k

/-! ### One live tick of `TelemetryPoller._run_obd` (lines 235–251) -/

/-- The value the tick records for one PID: `None` when the payload is
missing or shorter than `bytes_needed`, otherwise the decoded value rounded
to one decimal. -/
def pidTickValue (d : PIDDefinition) (response : List Char) : Option ℚ :=
  match parse_pid_bytes d.command response with
  | none => none
  | some payload =>
    if payload.length < d.bytes_needed then none
    else some (pyRound 1 (d.decoder (payload.take d.bytes_needed)))

/-- The `metrics` dict built by one complete tick of `_run_obd`, given the
adapter's response to each PID command and to `ATRV`. -/
def runTickMetrics (responses : List Char → List Char) (voltResp : List Char) :
    List (String × Option ℚ) :=
  PID_TABLE.map (fun kd => (kd.1, pidTickValue kd.2 (responses kd.2.command))) ++
    [("battery_v", (parse_voltage voltResp).map (pyRound 2))]

/-- A completed tick publishes the whole dict through one `update_metrics`
call with `connected=True`, `last_error=None`. -/
def tickPublish (s : StoreState) (responses : List Char → List Char)
    (voltResp : List Char) (now : Nat) : StoreState :=
  update_metrics s (runTickMetrics responses voltResp) true none now

/-! ### One tick of `TelemetryPoller._run_simulation` (lines 260–289)

`math.sin(...)` and `random.uniform(a, b)` are sampled once per metric per
tick; each sample is embedded as a parameter of the tick (a sine sample is
constrained to `[-1, 1]` and a uniform sample to `[a, b]` in the theorems,
exactly the ranges the library guarantees). -/

structure SimSample where
  sinT : ℚ
  sinT02 : ℚ
  sinT04 : ℚ
  sinT035 : ℚ
  jSpeed : ℚ
  jRpm : ℚ
  jLoad : ℚ
  jThrottle : ℚ
  jCoolant : ℚ
  jIntake : ℚ

/-- `max(lo, min(hi, x))`, the clamp idiom of `_run_simulation`. -/
def clamp (lo hi x : ℚ) : ℚ := max lo (min hi x)

def simSpeed (u : SimSample) : ℚ := clamp 0 220 (70 + u.sinT * 45 + u.jSpeed)

def simRpm (u : SimSample) : ℚ :=
  clamp 700 7000 (900 + simSpeed u * 34 + u.jRpm)

def simLoad (u : SimSample) : ℚ :=
  clamp 4 100 ((simRpm u / 7000) * 100 + u.jLoad)

def simThrottle (u : SimSample) : ℚ :=
  clamp 2 100 ((simSpeed u / 220) * 90 + u.jThrottle)

def simCoolant (u : SimSample) : ℚ :=
  clamp 65 110 (88 + u.sinT02 * 6 + u.jCoolant)

def simIntake (u : SimSample) : ℚ :=
  clamp 10 55 (25 + u.sinT04 * 9 + u.jIntake)

def simFuel (t : ℚ) : ℚ := clamp 5 100 (78 - t * (5/100))

def simVoltage (u : SimSample) : ℚ :=
  clamp (121/10) (144/10) (132/10 + u.sinT035 * (5/10))

/-- The metrics dict one simulation tick publishes (dict insertion order). -/
def simTickMetrics (t : ℚ) (u : SimSample) : List (String × Option ℚ) :=
  [("speed_kmh", some (pyRound 1 (simSpeed u))),
   ("rpm", some (pyRound 1 (simRpm u))),
   ("engine_load_pct", some (pyRound 1 (simLoad u))),
   ("throttle_pct", some (pyRound 1 (simThrottle u))),
   ("coolant_c", some (pyRound 1 (simCoolant u))),
   ("intake_c", some (pyRound 1 (simIntake u))),
   ("fuel_level_pct", some (pyRound 1 (simFuel t))),
   ("battery_v", some (pyRound 2 (simVoltage u)))]

/-! ### `ELM327Client.send` / `_read_until_prompt` (lines 117–158)

The network is modeled by the sequence of results that successive
`reader.read(256)` calls deliver: each read either returns a chunk of bytes
(possibly empty — the peer closed the socket) or times out (`asyncio.wait_for`
raising `TimeoutError`, surfaced by the poller as a connection fault).  A
trace that runs out of events before a prompt arrives means the next read
times out. -/

inductive ReadEvent where
  | timeout : ReadEvent
  | chunk : List Nat → ReadEvent
deriving DecidableEq

inductive ConnError where
  | notConnected
  | closedByPeer
  | readTimeout
deriving DecidableEq

/-- `raw.decode("ascii", errors="ignore")`. -/
def decodeAsciiIgnore (bs : List Nat) : List Char :=
  (bs.filter (fun b => b < 128)).map Char.ofNat

/-- `ELM327Client._read_until_prompt`: accumulate chunks until one contains
the ready prompt `>`; a timeout or a zero-length read raises. -/
def read_until_prompt : List ReadEvent → Except ConnError (List Char)
  | [] => .error .readTimeout
  | .timeout :: _ => .error .readTimeout
  | .chunk [] :: _ => .error .closedByPeer
  | .chunk (b :: bs) :: rest =>
    if (decodeAsciiIgnore (b :: bs)).contains '>' then
      .ok (decodeAsciiIgnore (b :: bs))
    else
      match read_until_prompt rest with
      | .ok s => .ok (decodeAsciiIgnore (b :: bs) ++ s)
      | .error e => .error e

/-- `ELM327Client.send(command)`: check the writer, write the command and a
`\r` (a write to an open stream does not fail), then read until the prompt.
`connected` models `self._writer is not None`. -/
def send (connected : Bool) (command : List Char)
    (events : List ReadEvent) : Except ConnError (List Char) :=
  if connected then read_until_prompt events else .error .notConnected

/-- A read event that advances accumulation without ending it: a non-empty
chunk whose decoded text does not contain the prompt. -/
def goodNonPrompt : ReadEvent → Bool
  | .timeout => false
  | .chunk bs => !bs.isEmpty && !(decodeAsciiIgnore bs).contains '>'

def decodeEvent : ReadEvent → List Char
  | .timeout => []
  | .chunk bs => decodeAsciiIgnore bs

/-- Declarative success condition for a read trace: some chunk contains the
prompt, every earlier event is a non-empty promptless chunk, and the result
is the concatenation of all decoded chunks up to and including the prompt
chunk. -/
def OkSpec (events : List ReadEvent) (s : List Char) : Prop :=
  ∃ pre bs post, events = pre ++ .chunk bs :: post ∧
    (∀ e ∈ pre, goodNonPrompt e = true) ∧ bs ≠ [] ∧
    (decodeAsciiIgnore bs).contains '>' = true ∧
    s = (pre.map decodeEvent).flatten ++ decodeAsciiIgnore bs

/-- Declarative condition for a zero-length read: the peer closes the socket
before any prompt. -/
def ClosedSpec (events : List ReadEvent) : Prop :=
  ∃ pre post, events = pre ++ .chunk [] :: post ∧
    ∀ e ∈ pre, goodNonPrompt e = true

/-- Declarative condition for a read timeout: the trace is exhausted, or a
read times out, before any prompt or zero-length read. -/
def TimeoutSpec (events : List ReadEvent) : Prop :=
  (∀ e ∈ events, goodNonPrompt e = true) ∨
  ∃ pre post, events = pre ++ .timeout :: post ∧
    ∀ e ∈ pre, goodNonPrompt e = true

/-! ### Configuration readers (`src/app/config.py`)

`env` models `os.getenv` after `_load_local_env_file` has run (that loader
only fills `os.environ`, so its effect is part of `env`). -/

def pyLowerChar (c : Char) : Char :=
  if 'A' ≤ c && c ≤ 'Z' then Char.ofNat (c.toNat + 32) else c

/-- The truthy strings of `_read_bool`. -/
def TRUTHY : List (List Char) :=
  ["1".toList, "true".toList, "yes".toList, "on".toList]

/-- `_read_bool(name, default)`. -/
def read_bool (env : String → Option (List Char)) (name : String)
    (default : Bool) : Bool :=
  match env name with
  | none => default
  | some v => TRUTHY.contains ((pyStrip v).map pyLowerChar)

/-- Maximal leading run of decimal digits with single underscores between
digits, as accepted inside Python numeric literals; returns the value, the
number of digits consumed, and the unconsumed remainder. -/
def digitRun : List Char → Nat → Nat → (Nat × Nat × List Char)
  | [], acc, cnt => (acc, cnt, [])
  | c :: rest, acc, cnt =>
    if c.isDigit then digitRun rest (acc * 10 + (c.toNat - 48)) (cnt + 1)
    else if c = '_' && cnt ≠ 0 then
      match rest with
      | d :: _ => if d.isDigit then digitRun rest acc cnt else (acc, cnt, c :: rest)
      | [] => (acc, cnt, c :: rest)
    else (acc, cnt, c :: rest)

/-- Digit run that must be non-empty, start with a digit and consume the
whole input — the shape `int(value)` accepts after sign. -/
def pyDigits (l : List Char) : Option Nat :=
  match digitRun l 0 0 with
  | (acc, cnt, []) => if cnt = 0 then none else some acc
  | _ => none

/-- Python's `int(value)` on ASCII input: strip, optional sign, digits. -/
def pyParseInt (l : List Char) : Option Int :=
  match pyStrip l with
  | '+' :: rest => (pyDigits rest).map (fun n => (n : Int))
  | '-' :: rest => (pyDigits rest).map (fun n => -(n : Int))
  | rest => (pyDigits rest).map (fun n => (n : Int))

/-- The value domain of Python's `float`. -/
inductive PyFloat where
  | finite : ℚ → PyFloat
  | inf : Bool → PyFloat
  | nan : PyFloat
deriving DecidableEq

/-- `digits ['.' digits?] | '.' digits` (value and remainder). -/
def parseDecimal (l : List Char) : Option (ℚ × List Char) :=
  match digitRun l 0 0 with
  | (ip, ic, r1) =>
    match r1 with
    | '.' :: r2 =>
      match digitRun r2 0 0 with
      | (fp, fc, r3) =>
        if ic = 0 && fc = 0 then none
        else some ((ip : ℚ) + (fp : ℚ) / 10 ^ fc, r3)
    | _ => if ic = 0 then none else some ((ip : ℚ), r1)

/-- Decimal with optional exponent, consuming the whole input. -/
def parseDecExp (s : List Char) : Option ℚ :=
  match parseDecimal s with
  | none => none
  | some (m, r1) =>
    match r1 with
    | [] => some m
    | 'e' :: r2 =>
      let signed : Bool × List Char :=
        match r2 with
        | '+' :: r => (false, r)
        | '-' :: r => (true, r)
        | r => (false, r)
      match digitRun signed.2 0 0 with
      | (e, ec, []) =>
        if ec = 0 then none
        else some (m * (10 : ℚ) ^ (if signed.1 then -(e : ℤ) else (e : ℤ)))
      | _ => none
    | _ => none

/-- Python's `float(value)` on ASCII input: strip, lowercase, optional sign,
then `inf`/`infinity`/`nan` or a decimal with optional exponent. -/
def pyParseFloat (l : List Char) : Option PyFloat :=
  let body := fun (s : List Char) (neg : Bool) =>
    if s = "inf".toList || s = "infinity".toList then some (PyFloat.inf neg)
    else if s = "nan".toList then some PyFloat.nan
    else (parseDecExp s).map
      (fun q => PyFloat.finite (if neg then -q else q))
  match (pyStrip l).map pyLowerChar with
  | '+' :: rest => body rest false
  | '-' :: rest => body rest true
  | rest => body rest false

/-- `_read_int(name, default)`. -/
def read_int (env : String → Option (List Char)) (name : String)
    (default : Int) : Int :=
  match env name with
  | none => default
  | some v =>
    match pyParseInt v with
    | some n => n
    | none => default

/-- `_read_float(name, default)`. -/
def read_float (env : String → Option (List Char)) (name : String)
    (default : PyFloat) : PyFloat :=
  match env name with
  | none => default
  | some v =>
    match pyParseFloat v with
    | some q => q
    | none => default

structure Settings where
  obd_host : List Char
  obd_port : Int
  poll_interval : PyFloat
  reconnect_delay : PyFloat
  http_host : List Char
  http_port : Int
  simulate : Bool

/-- `load_settings()`, with the documented defaults from the source. -/
def load_settings (env : String → Option (List Char)) : Settings :=
  { obd_host := (env "OBD_HOST").getD "192.168.0.10".toList
    obd_port := read_int env "OBD_PORT" 35000
    poll_interval := read_float env "POLL_INTERVAL" (PyFloat.finite (40/100))
    reconnect_delay := read_float env "RECONNECT_DELAY" (PyFloat.finite 3)
    http_host := (env "HTTP_HOST").getD "0.0.0.0".toList
    http_port := read_int env "HTTP_PORT" 8080
    simulate := read_bool env "SIMULATE" false }

/-! ### `TelemetryStore.snapshot` and `copy.deepcopy` (lines 88–90)

`snapshot()` returns `copy.deepcopy(self._snapshot)`.  Whether the returned
structure is independent of the store is a statement about Python object
aliasing, so this part of the embedding makes the heap explicit: a heap maps
addresses to dict objects whose values are primitives or references to other
objects (`_snapshot` is a dict holding the nested `adapter` and `metrics`
dicts).  `deepcopy` allocates a fresh address for every dict reachable from
the root; mutating an object reachable from the returned copy is modeled by
replacing that object's entries wholesale, which subsumes every dict update
or deletion.  `fuel` bounds the reference depth; `closedVal` certifies that
the value's reference graph is acyclic within `fuel` and allocated below the
heap's allocation pointer. -/

inductive PrimVal where
  | noneV : PrimVal
  | boolV : Bool → PrimVal
  | strV : String → PrimVal
  | natV : Nat → PrimVal
  | ratV : ℚ → PrimVal
deriving DecidableEq

inductive PyVal where
  | prim : PrimVal → PyVal
  | ref : Nat → PyVal
deriving DecidableEq

structure Heap where
  mem : Nat → List (String × PyVal)
  next : Nat

def deepcopyEntries (copyV : Heap → PyVal → PyVal × Heap) :
    Heap → List (String × PyVal) → List (String × PyVal) × Heap
  | h, [] => ([], h)
  | h, (k, v) :: rest =>
    let r1 := copyV h v
    let r2 := deepcopyEntries copyV r1.2 rest
    ((k, r1.1) :: r2.1, r2.2)

def deepcopyVal : Nat → Heap → PyVal → PyVal × Heap
  | _, h, .prim p => (.prim p, h)
  | 0, h, .ref a => (.ref a, h)
  | fuel + 1, h, .ref a =>
    let r := deepcopyEntries (deepcopyVal fuel) h (h.mem a)
    (.ref r.2.next,
     { mem := fun b => if b = r.2.next then r.1 else r.2.mem b,
       next := r.2.next + 1 })

inductive PyTree where
  | prim : PrimVal → PyTree
  | dict : List (String × PyTree) → PyTree

def readEntries (rd : PyVal → PyTree) :
    List (String × PyVal) → List (String × PyTree)
  | [] => []
  | (k, v) :: rest => (k, rd v) :: readEntries rd rest

def readTree : Nat → Heap → PyVal → PyTree
  | _, _, .prim p => .prim p
  | 0, _, .ref _ => .prim .noneV
  | fuel + 1, h, .ref a => .dict (readEntries (readTree fuel h) (h.mem a))

def closedEntries (cl : PyVal → Bool) : List (String × PyVal) → Bool
  | [] => true
  | (_, v) :: rest => cl v && closedEntries cl rest

def closedVal : Nat → Heap → PyVal → Bool
  | _, _, .prim _ => true
  | 0, _, .ref _ => false
  | fuel + 1, h, .ref a =>
    decide (a < h.next) && closedEntries (closedVal fuel h) (h.mem a)

def reachEntries (rc : PyVal → List Nat) : List (String × PyVal) → List Nat
  | [] => []
  | (_, v) :: rest => rc v ++ reachEntries rc rest

def reachAddrs : Nat → Heap → PyVal → List Nat
  | _, _, .prim _ => []
  | 0, _, .ref a => [a]
  | fuel + 1, h, .ref a => a :: reachEntries (reachAddrs fuel h) (h.mem a)

def mutateObj (h : Heap) (a : Nat) (entries : List (String × PyVal)) : Heap :=
  { mem := fun b => if b = a then entries else h.mem b, next := h.next }

def snapshot (fuel : Nat) (h : Heap) (root : PyVal) : PyVal × Heap :=
  deepcopyVal fuel h root


/-- A concrete store heap as `TelemetryStore.__init__` builds it: root dict
at address 0, `adapter` dict at 1, `metrics` dict at 2. -/
def storeHeap : Heap :=
  { mem := fun a =>
      if a = 0 then
        [("connected", .prim (.boolV false)), ("updated_at", .prim .noneV),
         ("last_error", .prim .noneV), ("adapter", .ref 1),
         ("metrics", .ref 2)]
      else if a = 1 then
        [("host", .prim (.strV "192.168.0.10")), ("port", .prim (.natV 35000))]
      else if a = 2 then METRIC_KEYS.map (fun k => (k, .prim .noneV))
      else [],
    next := 3 }


/-! ### Concrete inputs used by witnesses -/

/-- Adapter responses for a tick where the rpm request yields `NO DATA` and
every other request yields a valid one-byte frame for PID `0D`. -/
def wResponses : List Char → List Char := fun c =>
  if c = "010C".toList then "NO DATA\r>".toList else "41 0D 2A\r>".toList

/-- The `PIDDefinition` registered for `"rpm"`. -/
def rpmDef : PIDDefinition :=
  ⟨"010C".toList, 2, fun d => ((d.headD 0 : ℚ) * 256 + (d.getD 1 0 : ℚ)) / 4⟩

/-! ### Association-list lemmas for the store -/

theorem setMetric_cons (a : String) (b : Option ℚ)
    (rest : List (String × Option ℚ)) (k : String) (v : Option ℚ) :
    setMetric ((a, b) :: rest) k v =
      (if a = k then (k, v) else (a, b)) :: setMetric rest k v := rfl

theorem setMetric_keys (ms : List (String × Option ℚ)) (k : String)
    (v : Option ℚ) : (setMetric ms k v).map Prod.fst = ms.map Prod.fst := by
  induction ms with
  | nil => rfl
  | cons kv rest ih =>
    obtain ⟨a, b⟩ := kv
    rw [setMetric_cons]
    by_cases h : a = k <;> simp [h, ih]

theorem lookup_setMetric_self (ms : List (String × Option ℚ)) (k : String)
    (v : Option ℚ) (hk : k ∈ ms.map Prod.fst) :
    (setMetric ms k v).lookup k = some v := by
  induction ms with
  | nil => simp at hk
  | cons kv rest ih =>
    obtain ⟨a, b⟩ := kv
    rw [List.map_cons, List.mem_cons] at hk
    rw [setMetric_cons]
    by_cases h : a = k
    · rw [if_pos h, List.lookup_cons]
      simp
    · rw [if_neg h, List.lookup_cons]
      have hk' : k ∈ rest.map Prod.fst := by
        rcases hk with hk | hk
        · exact absurd hk.symm h
        · exact hk
      have hbeq : (k == a) = false := by
        simp [Ne.symm h]
      rw [hbeq]
      exact ih hk'

theorem lookup_setMetric_other (ms : List (String × Option ℚ)) (k k' : String)
    (v : Option ℚ) (hne : k' ≠ k) :
    (setMetric ms k v).lookup k' = ms.lookup k' := by
  induction ms with
  | nil => rfl
  | cons kv rest ih =>
    obtain ⟨a, b⟩ := kv
    rw [setMetric_cons]
    by_cases h : a = k
    · rw [if_pos h, List.lookup_cons, List.lookup_cons]
      have h1 : (k' == k) = false := by simp [hne]
      have h2 : (k' == a) = false := by simp [h ▸ hne]
      rw [h1, h2]
      exact ih
    · rw [if_neg h, List.lookup_cons, List.lookup_cons]
      by_cases h' : k' = a
      · simp [h']
      · have h2 : (k' == a) = false := by simp [h']
        rw [h2]
        exact ih

theorem setMetric_not_mem (ms : List (String × Option ℚ)) (k : String)
    (v : Option ℚ) (hk : k ∉ ms.map Prod.fst) : setMetric ms k v = ms := by
  induction ms with
  | nil => rfl
  | cons kv rest ih =>
    obtain ⟨a, b⟩ := kv
    rw [List.map_cons, List.mem_cons] at hk
    push_neg at hk
    rw [setMetric_cons, if_neg (fun h => hk.1 h.symm), ih hk.2]

theorem lookup_append_left {β : Type} (l₁ l₂ : List (String × β)) (k : String)
    (v : β) (h : l₁.lookup k = some v) : (l₁ ++ l₂).lookup k = some v := by
  induction l₁ with
  | nil => cases h
  | cons kv rest ih =>
    obtain ⟨a, b⟩ := kv
    rw [List.lookup_cons] at h
    rw [List.cons_append, List.lookup_cons]
    cases hk : (k == a) with
    | true => rw [hk] at h; exact h
    | false => rw [hk] at h; exact ih h

/-- Looking up `k` in an association list built by mapping a value
transformer over a no-duplicate association list. -/
theorem lookup_map_assoc {β : Type} (l : List (String × PIDDefinition))
    (g : String → PIDDefinition → β) (k : String) (d : PIDDefinition)
    (hnd : (l.map Prod.fst).Nodup) (hmem : (k, d) ∈ l) :
    (l.map (fun kd => (kd.1, g kd.1 kd.2))).lookup k = some (g k d) := by
  induction l with
  | nil => cases hmem
  | cons kv rest ih =>
    obtain ⟨a, b⟩ := kv
    rw [List.map_cons, List.nodup_cons] at hnd
    rcases List.mem_cons.mp hmem with heq | hmem'
    · cases heq
      rw [List.map_cons, List.lookup_cons]
      simp
    · have hka : k ≠ a := by
        intro hcontra
        have hkmem : k ∈ rest.map Prod.fst := List.mem_map_of_mem Prod.fst hmem'
        exact hnd.1 (hcontra ▸ hkmem)
      rw [List.map_cons, List.lookup_cons]
      have hbeq : (k == a) = false := by simp [hka]
      rw [hbeq]
      exact ih hnd.2 hmem'

theorem foldl_setMetric_keys (m : List (String × Option ℚ))
    (ms : List (String × Option ℚ)) :
    ((m.foldl (fun acc kv => setMetric acc kv.1 kv.2) ms).map Prod.fst) =
      ms.map Prod.fst := by
  induction m generalizing ms with
  | nil => rfl
  | cons kv rest ih => rw [List.foldl_cons, ih, setMetric_keys]

theorem lookup_foldl_setMetric_not_mem (m : List (String × Option ℚ))
    (ms : List (String × Option ℚ)) (k : String)
    (hk : k ∉ m.map Prod.fst) :
    (m.foldl (fun acc kv => setMetric acc kv.1 kv.2) ms).lookup k =
      ms.lookup k := by
  induction m generalizing ms with
  | nil => rfl
  | cons kv rest ih =>
    obtain ⟨a, b⟩ := kv
    rw [List.map_cons, List.mem_cons] at hk
    push_neg at hk
    rw [List.foldl_cons, ih _ hk.2, lookup_setMetric_other _ _ _ _ hk.1]

/-- After folding a whole metrics dict into the store, a key carried by the
dict holds the dict's value (dict keys assumed distinct, store assumed to
know the key). -/
theorem lookup_foldl_setMetric (m : List (String × Option ℚ))
    (ms : List (String × Option ℚ)) (k : String) (v : Option ℚ)
    (hmem : (k, v) ∈ m) (hnd : (m.map Prod.fst).Nodup)
    (hk : k ∈ ms.map Prod.fst) :
    (m.foldl (fun acc kv => setMetric acc kv.1 kv.2) ms).lookup k = some v := by
  induction m generalizing ms with
  | nil => cases hmem
  | cons kv rest ih =>
    obtain ⟨a, b⟩ := kv
    rw [List.map_cons, List.nodup_cons] at hnd
    rcases List.mem_cons.mp hmem with heq | hmem'
    · cases heq
      rw [List.foldl_cons,
        lookup_foldl_setMetric_not_mem _ _ _ hnd.1,
        lookup_setMetric_self _ _ _ hk]
    · have hka : k ≠ a := by
        intro hcontra
        have hkmem : k ∈ rest.map Prod.fst := List.mem_map_of_mem Prod.fst hmem'
        exact hnd.1 (hcontra ▸ hkmem)
      rw [List.foldl_cons]
      exact ih (setMetric ms a b) hmem' hnd.2 (by rw [setMetric_keys]; exact hk)

/-- The key list of a tick's metrics dict is exactly `METRIC_KEYS`,
independent of the adapter's responses. -/
theorem runTickMetrics_keys (responses : List Char → List Char)
    (voltResp : List Char) :
    (runTickMetrics responses voltResp).map Prod.fst = METRIC_KEYS := by
  rw [runTickMetrics, METRIC_KEYS, List.map_append, List.map_map]
  rfl

/-- A PID whose payload is missing or too short is recorded as `None`. -/
theorem pidTickValue_none (d : PIDDefinition) (response : List Char)
    (hfail : ∀ p, parse_pid_bytes d.command response = some p →
      p.length < d.bytes_needed) :
    pidTickValue d response = none := by
  cases hp : parse_pid_bytes d.command response with
  | none => simp [pidTickValue, hp]
  | some p => simp [pidTickValue, hp, hfail p hp]

/-! ### Bounds for Python's `round` and for `clamp` -/

theorem le_halfEvenRound (z : ℚ) (a : ℤ) (h : (a : ℚ) ≤ z) :
    a ≤ halfEvenRound z := by
  have hfz : a ≤ ⌊z⌋ := Int.le_floor.mpr h
  unfold halfEvenRound
  split_ifs <;> omega

theorem halfEvenRound_le (z : ℚ) (b : ℤ) (h : z ≤ (b : ℚ)) :
    halfEvenRound z ≤ b := by
  have hfl : ⌊z⌋ ≤ b := by simpa using Int.floor_mono h
  unfold halfEvenRound
  split_ifs with h1 h2 h3
  · exact hfl
  · have hlt : (⌊z⌋ : ℚ) < (b : ℚ) := by
      have hfloor := Int.floor_le z
      linarith
    have hzb : ⌊z⌋ < b := by exact_mod_cast hlt
    omega
  · exact hfl
  · have hhalf : (1:ℚ)/2 ≤ z - (⌊z⌋ : ℚ) := not_lt.mp h1
    have hlt : (⌊z⌋ : ℚ) < (b : ℚ) := by linarith
    have hzb : ⌊z⌋ < b := by exact_mod_cast hlt
    omega

/-- Rounding to `n` decimals keeps a value inside any enclosing interval
whose endpoints are multiples of `10 ^ (-n)`. -/
theorem pyRound_mem_Icc (n : Nat) (x : ℚ) (a b : ℤ)
    (ha : (a : ℚ) / 10 ^ n ≤ x) (hb : x ≤ (b : ℚ) / 10 ^ n) :
    (a : ℚ) / 10 ^ n ≤ pyRound n x ∧ pyRound n x ≤ (b : ℚ) / 10 ^ n := by
  have hpow : (0:ℚ) < 10 ^ n := by positivity
  have ha' : (a : ℚ) ≤ x * 10 ^ n := by
    rw [div_le_iff₀ hpow] at ha; linarith
  have hb' : x * 10 ^ n ≤ (b : ℚ) := by
    rw [le_div_iff₀ hpow] at hb; linarith
  constructor
  · rw [pyRound]
    exact (div_le_div_iff_of_pos_right hpow).mpr
      (Int.cast_le.mpr (le_halfEvenRound _ _ ha'))
  · rw [pyRound]
    exact (div_le_div_iff_of_pos_right hpow).mpr
      (Int.cast_le.mpr (halfEvenRound_le _ _ hb'))

theorem le_clamp (lo hi x : ℚ) : lo ≤ clamp lo hi x := le_max_left _ _

theorem clamp_le (lo hi x : ℚ) (h : lo ≤ hi) : clamp lo hi x ≤ hi :=
  max_le h (min_le_left _ _)

/-- Rounded clamp stays inside the clamp interval when the endpoints are
representable at the rounding granularity. -/
theorem pyRound_clamp_mem (n : Nat) (lo hi x : ℚ) (a b : ℤ)
    (hlo : (a : ℚ) / 10 ^ n = lo) (hhi : (b : ℚ) / 10 ^ n = hi) (hab : lo ≤ hi) :
    lo ≤ pyRound n (clamp lo hi x) ∧ pyRound n (clamp lo hi x) ≤ hi := by
  have h1 := le_clamp lo hi x
  have h2 := clamp_le lo hi x hab
  have h := pyRound_mem_Icc n (clamp lo hi x) a b (by rw [hlo]; exact h1)
    (by rw [hhi]; exact h2)
  rw [hlo, hhi] at h
  exact h

/-! ### Characterization lemmas for `_read_until_prompt` -/

theorem rup_ok_iff (events : List ReadEvent) (s : List Char) :
    read_until_prompt events = .ok s ↔ OkSpec events s := by
  induction events generalizing s with
  | nil =>
    constructor
    · intro h; cases h
    · rintro ⟨pre, bs, post, hev, hgood, hbs, hp, hs⟩
      cases pre <;> simp at hev
  | cons e rest ih =>
    cases e with
    | timeout =>
      constructor
      · intro h; cases h
      · rintro ⟨pre, bs, post, hev, hgood, hbs, hp, hs⟩
        cases pre with
        | nil => simp at hev
        | cons e' pre' =>
          rw [List.cons_append] at hev
          injection hev with h1 h2
          subst h1
          exact absurd (hgood _ (List.mem_cons_self _ _)) (by simp [goodNonPrompt])
    | chunk bs0 =>
      cases bs0 with
      | nil =>
        constructor
        · intro h; cases h
        · rintro ⟨pre, bs, post, hev, hgood, hbs, hp, hs⟩
          cases pre with
          | nil =>
            simp at hev
            exact (hbs hev.1).elim
          | cons e' pre' =>
            rw [List.cons_append] at hev
            injection hev with h1 h2
            subst h1
            have hg := hgood _ (List.mem_cons_self _ _)
            simp [goodNonPrompt] at hg
      | cons b bs' =>
        by_cases hpr : (decodeAsciiIgnore (b :: bs')).contains '>' = true
        · rw [read_until_prompt, if_pos hpr]
          constructor
          · intro h
            injection h with h
            exact ⟨[], b :: bs', rest, by simp, by simp, by simp, hpr,
              by simp [h.symm]⟩
          · rintro ⟨pre, bs, post, hev, hgood, hbs, hp, hs⟩
            cases pre with
            | nil =>
              simp at hev
              obtain ⟨h1, h2⟩ := hev
              subst h2
              simp [hs, h1]
            | cons e' pre' =>
              rw [List.cons_append] at hev
              injection hev with h1 h2
              subst h1
              have hg := hgood _ (List.mem_cons_self _ _)
              simp only [goodNonPrompt, Bool.and_eq_true, Bool.not_eq_true'] at hg
              rw [hg.2] at hpr
              cases hpr
        · have hprf : (decodeAsciiIgnore (b :: bs')).contains '>' = false := by
            simpa using hpr
          rw [read_until_prompt, if_neg hpr]
          constructor
          · intro h
            cases hr : read_until_prompt rest with
            | error e => rw [hr] at h; cases h
            | ok s' =>
              rw [hr] at h
              injection h with h
              obtain ⟨pre, bs, post, hev, hgood, hbs, hp, hs⟩ := (ih s').mp hr
              refine ⟨.chunk (b :: bs') :: pre, bs, post,
                by rw [hev, List.cons_append], ?_, hbs, hp, ?_⟩
              · intro e he
                rcases List.mem_cons.mp he with rfl | he'
                · simp only [goodNonPrompt, Bool.and_eq_true, Bool.not_eq_true']
                  exact ⟨rfl, hprf⟩
                · exact hgood e he'
              · rw [← h, hs]
                simp [decodeEvent]
          · rintro ⟨pre, bs, post, hev, hgood, hbs, hp, hs⟩
            cases pre with
            | nil =>
              simp at hev
              obtain ⟨h1, h2⟩ := hev
              rw [← h1] at hp
              rw [hp] at hprf
              cases hprf
            | cons e' pre' =>
              rw [List.cons_append] at hev
              injection hev with h1 h2
              subst h1
              have hok : read_until_prompt rest =
                  .ok ((pre'.map decodeEvent).flatten ++ decodeAsciiIgnore bs) := by
                refine (ih _).mpr ⟨pre', bs, post, h2, ?_, hbs, hp, rfl⟩
                intro e he
                exact hgood e (List.mem_cons_of_mem _ he)
              rw [hok]
              rw [hs]
              simp [decodeEvent]

theorem rup_closed_iff (events : List ReadEvent) :
    read_until_prompt events = .error .closedByPeer ↔ ClosedSpec events := by
  induction events with
  | nil =>
    constructor
    · intro h; injection h with h; cases h
    · rintro ⟨pre, post, hev, hgood⟩
      cases pre <;> simp at hev
  | cons e rest ih =>
    cases e with
    | timeout =>
      constructor
      · intro h; injection h with h; cases h
      · rintro ⟨pre, post, hev, hgood⟩
        cases pre with
        | nil => simp at hev
        | cons e' pre' =>
          rw [List.cons_append] at hev
          injection hev with h1 h2
          subst h1
          exact absurd (hgood _ (List.mem_cons_self _ _)) (by simp [goodNonPrompt])
    | chunk bs0 =>
      cases bs0 with
      | nil =>
        constructor
        · intro h
          exact ⟨[], rest, rfl, by simp⟩
        · intro h
          rfl
      | cons b bs' =>
        by_cases hpr : (decodeAsciiIgnore (b :: bs')).contains '>' = true
        · rw [read_until_prompt, if_pos hpr]
          constructor
          · intro h; cases h
          · rintro ⟨pre, post, hev, hgood⟩
            cases pre with
            | nil => simp at hev
            | cons e' pre' =>
              rw [List.cons_append] at hev
              injection hev with h1 h2
              subst h1
              have hg := hgood _ (List.mem_cons_self _ _)
              simp only [goodNonPrompt, Bool.and_eq_true, Bool.not_eq_true'] at hg
              rw [hg.2] at hpr
              cases hpr
        · have hprf : (decodeAsciiIgnore (b :: bs')).contains '>' = false := by
            simpa using hpr
          rw [read_until_prompt, if_neg hpr]
          constructor
          · intro h
            cases hr : read_until_prompt rest with
            | ok s' => rw [hr] at h; cases h
            | error e =>
              rw [hr] at h
              injection h with h
              subst h
              obtain ⟨pre, post, hev, hgood⟩ := ih.mp hr
              refine ⟨.chunk (b :: bs') :: pre, post,
                by rw [hev, List.cons_append], ?_⟩
              intro e he
              rcases List.mem_cons.mp he with rfl | he'
              · simp only [goodNonPrompt, Bool.and_eq_true, Bool.not_eq_true']
                exact ⟨rfl, hprf⟩
              · exact hgood e he'
          · rintro ⟨pre, post, hev, hgood⟩
            cases pre with
            | nil => simp at hev
            | cons e' pre' =>
              rw [List.cons_append] at hev
              injection hev with h1 h2
              subst h1
              have hok : read_until_prompt rest = .error .closedByPeer :=
                ih.mpr ⟨pre', post, h2, fun e he => hgood e (List.mem_cons_of_mem _ he)⟩
              rw [hok]

theorem rup_timeout_iff (events : List ReadEvent) :
    read_until_prompt events = .error .readTimeout ↔ TimeoutSpec events := by
  induction events with
  | nil =>
    constructor
    · intro h
      exact Or.inl (by simp)
    · intro h
      rfl
  | cons e rest ih =>
    cases e with
    | timeout =>
      constructor
      · intro h
        exact Or.inr ⟨[], rest, rfl, by simp⟩
      · intro h
        rfl
    | chunk bs0 =>
      cases bs0 with
      | nil =>
        constructor
        · intro h; injection h with h; cases h
        · rintro (h | ⟨pre, post, hev, hgood⟩)
          · have hg := h _ (List.mem_cons_self _ _)
            simp [goodNonPrompt] at hg
          · cases pre with
            | nil => simp at hev
            | cons e' pre' =>
              rw [List.cons_append] at hev
              injection hev with h1 h2
              subst h1
              have hg := hgood _ (List.mem_cons_self _ _)
              simp [goodNonPrompt] at hg
      | cons b bs' =>
        by_cases hpr : (decodeAsciiIgnore (b :: bs')).contains '>' = true
        · rw [read_until_prompt, if_pos hpr]
          constructor
          · intro h; cases h
          · rintro (h | ⟨pre, post, hev, hgood⟩)
            · have hg := h _ (List.mem_cons_self _ _)
              simp only [goodNonPrompt, Bool.and_eq_true, Bool.not_eq_true'] at hg
              rw [hg.2] at hpr
              cases hpr
            · cases pre with
              | nil => simp at hev
              | cons e' pre' =>
                rw [List.cons_append] at hev
                injection hev with h1 h2
                subst h1
                have hg := hgood _ (List.mem_cons_self _ _)
                simp only [goodNonPrompt, Bool.and_eq_true, Bool.not_eq_true'] at hg
                rw [hg.2] at hpr
                cases hpr
        · have hprf : (decodeAsciiIgnore (b :: bs')).contains '>' = false := by
            simpa using hpr
          have hgoodhead : goodNonPrompt (.chunk (b :: bs')) = true := by
            simp only [goodNonPrompt, Bool.and_eq_true, Bool.not_eq_true']
            exact ⟨rfl, hprf⟩
          rw [read_until_prompt, if_neg hpr]
          constructor
          · intro h
            cases hr : read_until_prompt rest with
            | ok s' => rw [hr] at h; cases h
            | error e =>
              rw [hr] at h
              injection h with h
              subst h
              rcases ih.mp hr with h | ⟨pre, post, hev, hgood⟩
              · refine Or.inl ?_
                intro e he
                rcases List.mem_cons.mp he with rfl | he'
                · exact hgoodhead
                · exact h e he'
              · refine Or.inr ⟨.chunk (b :: bs') :: pre, post,
                  by rw [hev, List.cons_append], ?_⟩
                intro e he
                rcases List.mem_cons.mp he with rfl | he'
                · exact hgoodhead
                · exact hgood e he'
          · rintro (h | ⟨pre, post, hev, hgood⟩)
            · have hok : read_until_prompt rest = .error .readTimeout :=
                ih.mpr (Or.inl fun e he => h e (List.mem_cons_of_mem _ he))
              rw [hok]
            · cases pre with
              | nil => simp at hev
              | cons e' pre' =>
                rw [List.cons_append] at hev
                injection hev with h1 h2
                subst h1
                have hok : read_until_prompt rest = .error .readTimeout :=
                  ih.mpr (Or.inr ⟨pre', post, h2,
                    fun e he => hgood e (List.mem_cons_of_mem _ he)⟩)
                rw [hok]

/-! ### Deep-copy lemmas for the heap model -/

-- frame lemma for entries given frame for the element copier
theorem deepcopyEntries_frame
    (copyV : Heap → PyVal → PyVal × Heap)
    (hcv : ∀ h v, h.next ≤ (copyV h v).2.next ∧
      ∀ b, b < h.next → (copyV h v).2.mem b = h.mem b)
    (l : List (String × PyVal)) (h : Heap) :
    h.next ≤ (deepcopyEntries copyV h l).2.next ∧
    ∀ b, b < h.next → (deepcopyEntries copyV h l).2.mem b = h.mem b := by
  induction l generalizing h with
  | nil => exact ⟨le_refl _, fun b hb => rfl⟩
  | cons kv rest ih =>
    obtain ⟨k, v⟩ := kv
    have h1 := hcv h v
    have h2 := ih (copyV h v).2
    rw [deepcopyEntries]
    constructor
    · exact le_trans h1.1 h2.1
    · intro b hb
      rw [h2.2 b (lt_of_lt_of_le hb h1.1), h1.2 b hb]

theorem deepcopyVal_frame (fuel : Nat) :
    ∀ (h : Heap) (v : PyVal),
    h.next ≤ (deepcopyVal fuel h v).2.next ∧
    ∀ b, b < h.next → (deepcopyVal fuel h v).2.mem b = h.mem b := by
  induction fuel with
  | zero =>
    intro h v
    cases v with
    | prim p => exact ⟨le_refl _, fun b hb => rfl⟩
    | ref a => exact ⟨le_refl _, fun b hb => rfl⟩
  | succ fuel ih =>
    intro h v
    cases v with
    | prim p => exact ⟨le_refl _, fun b hb => rfl⟩
    | ref a =>
      have he := deepcopyEntries_frame (deepcopyVal fuel) ih (h.mem a) h
      rw [deepcopyVal]
      constructor
      · exact le_trans (le_trans he.1 (Nat.le_succ _)) (le_refl _)
      · intro b hb
        have hbne : b ≠ (deepcopyEntries (deepcopyVal fuel) h (h.mem a)).2.next :=
          Nat.ne_of_lt (lt_of_lt_of_le hb he.1)
        simp only [hbne, if_neg hbne]
        exact he.2 b hb



theorem closedEntries_mem (cl : PyVal → Bool) (l : List (String × PyVal))
    (hl : closedEntries cl l = true) : ∀ kv ∈ l, cl kv.2 = true := by
  induction l with
  | nil => intro kv h; cases h
  | cons kv0 rest ih =>
    obtain ⟨k, v⟩ := kv0
    rw [closedEntries, Bool.and_eq_true] at hl
    intro kv hkv
    rcases List.mem_cons.mp hkv with rfl | hm
    · exact hl.1
    · exact ih hl.2 kv hm

theorem closedEntries_of_forall (cl : PyVal → Bool) (l : List (String × PyVal))
    (h : ∀ kv ∈ l, cl kv.2 = true) : closedEntries cl l = true := by
  induction l with
  | nil => rfl
  | cons kv0 rest ih =>
    obtain ⟨k, v⟩ := kv0
    rw [closedEntries, Bool.and_eq_true]
    exact ⟨h (k, v) (List.mem_cons_self _ _),
      ih (fun kv hkv => h kv (List.mem_cons_of_mem _ hkv))⟩

theorem readEntries_congr (rd1 rd2 : PyVal → PyTree)
    (l : List (String × PyVal)) (h : ∀ kv ∈ l, rd1 kv.2 = rd2 kv.2) :
    readEntries rd1 l = readEntries rd2 l := by
  induction l with
  | nil => rfl
  | cons kv0 rest ih =>
    obtain ⟨k, v⟩ := kv0
    rw [readEntries, readEntries, h (k, v) (List.mem_cons_self _ _),
      ih (fun kv hkv => h kv (List.mem_cons_of_mem _ hkv))]

theorem reachEntries_congr (rc1 rc2 : PyVal → List Nat)
    (l : List (String × PyVal)) (h : ∀ kv ∈ l, rc1 kv.2 = rc2 kv.2) :
    reachEntries rc1 l = reachEntries rc2 l := by
  induction l with
  | nil => rfl
  | cons kv0 rest ih =>
    obtain ⟨k, v⟩ := kv0
    rw [reachEntries, reachEntries, h (k, v) (List.mem_cons_self _ _),
      ih (fun kv hkv => h kv (List.mem_cons_of_mem _ hkv))]

theorem readTree_stable (fuel : Nat) : ∀ (h h2 : Heap) (v : PyVal),
    closedVal fuel h v = true → (∀ a, a < h.next → h2.mem a = h.mem a) →
    readTree fuel h2 v = readTree fuel h v := by
  induction fuel with
  | zero =>
    intro h h2 v hcl hm
    cases v with
    | prim p => rfl
    | ref a => rw [closedVal] at hcl; cases hcl
  | succ fuel ih =>
    intro h h2 v hcl hm
    cases v with
    | prim p => rfl
    | ref a =>
      rw [closedVal, Bool.and_eq_true, decide_eq_true_eq] at hcl
      rw [readTree, readTree, hm a hcl.1]
      have hent := closedEntries_mem _ _ hcl.2
      rw [readEntries_congr (readTree fuel h2) (readTree fuel h) (h.mem a)
        (fun kv hkv => ih h h2 kv.2 (hent kv hkv) hm)]

theorem closed_stable (fuel : Nat) : ∀ (h h2 : Heap) (v : PyVal),
    closedVal fuel h v = true → (∀ a, a < h.next → h2.mem a = h.mem a) →
    h.next ≤ h2.next → closedVal fuel h2 v = true := by
  induction fuel with
  | zero =>
    intro h h2 v hcl hm hn
    cases v with
    | prim p => rfl
    | ref a => rw [closedVal] at hcl; cases hcl
  | succ fuel ih =>
    intro h h2 v hcl hm hn
    cases v with
    | prim p => rfl
    | ref a =>
      rw [closedVal, Bool.and_eq_true, decide_eq_true_eq] at hcl
      rw [closedVal, Bool.and_eq_true, decide_eq_true_eq, hm a hcl.1]
      refine ⟨lt_of_lt_of_le hcl.1 hn, ?_⟩
      have hent := closedEntries_mem _ _ hcl.2
      exact closedEntries_of_forall _ _
        (fun kv hkv => ih h h2 kv.2 (hent kv hkv) hm hn)

theorem reach_stable (fuel : Nat) : ∀ (h h2 : Heap) (v : PyVal),
    closedVal fuel h v = true → (∀ a, a < h.next → h2.mem a = h.mem a) →
    reachAddrs fuel h2 v = reachAddrs fuel h v := by
  induction fuel with
  | zero =>
    intro h h2 v hcl hm
    cases v with
    | prim p => rfl
    | ref a => rw [closedVal] at hcl; cases hcl
  | succ fuel ih =>
    intro h h2 v hcl hm
    cases v with
    | prim p => rfl
    | ref a =>
      rw [closedVal, Bool.and_eq_true, decide_eq_true_eq] at hcl
      rw [reachAddrs, reachAddrs, hm a hcl.1]
      have hent := closedEntries_mem _ _ hcl.2
      rw [reachEntries_congr (reachAddrs fuel h2) (reachAddrs fuel h) (h.mem a)
        (fun kv hkv => ih h h2 kv.2 (hent kv hkv) hm)]


theorem deepcopy_spec (fuel : Nat) : ∀ (h : Heap) (v : PyVal),
    closedVal fuel h v = true →
    closedVal fuel (deepcopyVal fuel h v).2 (deepcopyVal fuel h v).1 = true ∧
    (∀ a ∈ reachAddrs fuel (deepcopyVal fuel h v).2 (deepcopyVal fuel h v).1,
      h.next ≤ a) ∧
    readTree fuel (deepcopyVal fuel h v).2 (deepcopyVal fuel h v).1 =
      readTree fuel h v := by
  induction fuel with
  | zero =>
    intro h v hcl
    cases v with
    | prim p =>
      refine ⟨rfl, ?_, rfl⟩
      intro a ha
      cases ha
    | ref a => rw [closedVal] at hcl; cases hcl
  | succ fuel ih =>
    -- inner specification for copying a whole entry list at the lower fuel
    have hE : ∀ (l : List (String × PyVal)) (h1 : Heap),
        closedEntries (closedVal fuel h1) l = true →
        readEntries (readTree fuel (deepcopyEntries (deepcopyVal fuel) h1 l).2)
            (deepcopyEntries (deepcopyVal fuel) h1 l).1 =
          readEntries (readTree fuel h1) l ∧
        closedEntries (closedVal fuel (deepcopyEntries (deepcopyVal fuel) h1 l).2)
            (deepcopyEntries (deepcopyVal fuel) h1 l).1 = true ∧
        (∀ x ∈ reachEntries
            (reachAddrs fuel (deepcopyEntries (deepcopyVal fuel) h1 l).2)
            (deepcopyEntries (deepcopyVal fuel) h1 l).1, h1.next ≤ x) := by
      intro l
      induction l with
      | nil =>
        intro h1 hcl
        exact ⟨rfl, rfl, by intro x hx; cases hx⟩
      | cons kv rest ihl =>
        obtain ⟨k, v⟩ := kv
        intro h1 hcl
        rw [closedEntries, Bool.and_eq_true] at hcl
        have ihv := ih h1 v hcl.1
        have frame1 := deepcopyVal_frame fuel h1 v
        have hrestcl : closedEntries (closedVal fuel (deepcopyVal fuel h1 v).2)
            rest = true :=
          closedEntries_of_forall _ _ (fun kv hkv =>
            closed_stable fuel h1 _ kv.2 (closedEntries_mem _ _ hcl.2 kv hkv)
              frame1.2 frame1.1)
        have ihrest := ihl (deepcopyVal fuel h1 v).2 hrestcl
        have framerest := deepcopyEntries_frame (deepcopyVal fuel)
          (deepcopyVal_frame fuel) rest (deepcopyVal fuel h1 v).2
        rw [deepcopyEntries]
        refine ⟨?_, ?_, ?_⟩
        · rw [readEntries, readEntries]
          have hhead : readTree fuel
              (deepcopyEntries (deepcopyVal fuel) (deepcopyVal fuel h1 v).2 rest).2
              (deepcopyVal fuel h1 v).1 = readTree fuel h1 v := by
            rw [readTree_stable fuel (deepcopyVal fuel h1 v).2 _
              (deepcopyVal fuel h1 v).1 ihv.1 framerest.2]
            exact ihv.2.2
          rw [hhead, ihrest.1]
          have htail : readEntries (readTree fuel (deepcopyVal fuel h1 v).2) rest =
              readEntries (readTree fuel h1) rest :=
            readEntries_congr _ _ _ (fun kv hkv =>
              readTree_stable fuel h1 _ kv.2
                (closedEntries_mem _ _ hcl.2 kv hkv) frame1.2)
          rw [htail]
        · rw [closedEntries, Bool.and_eq_true]
          refine ⟨?_, ihrest.2.1⟩
          exact closed_stable fuel (deepcopyVal fuel h1 v).2 _
            (deepcopyVal fuel h1 v).1 ihv.1 framerest.2 framerest.1
        · intro x hx
          rw [reachEntries] at hx
          rcases List.mem_append.mp hx with hx | hx
          · have hreach : reachAddrs fuel
                (deepcopyEntries (deepcopyVal fuel) (deepcopyVal fuel h1 v).2 rest).2
                (deepcopyVal fuel h1 v).1 =
                reachAddrs fuel (deepcopyVal fuel h1 v).2 (deepcopyVal fuel h1 v).1 :=
              reach_stable fuel (deepcopyVal fuel h1 v).2 _
                (deepcopyVal fuel h1 v).1 ihv.1 framerest.2
            rw [hreach] at hx
            exact ihv.2.1 x hx
          · exact le_trans frame1.1 (ihrest.2.2 x hx)
    intro h v hcl
    cases v with
    | prim p =>
      refine ⟨rfl, ?_, rfl⟩
      intro a ha
      cases ha
    | ref a =>
      rw [closedVal, Bool.and_eq_true, decide_eq_true_eq] at hcl
      have hent := hE (h.mem a) h hcl.2
      have frameE := deepcopyEntries_frame (deepcopyVal fuel)
        (deepcopyVal_frame fuel) (h.mem a) h
      rw [deepcopyVal]
      set r := deepcopyEntries (deepcopyVal fuel) h (h.mem a) with hr
      -- the allocated heap
      set h2 : Heap :=
        { mem := fun b => if b = r.2.next then r.1 else r.2.mem b,
          next := r.2.next + 1 } with hh2
      have hmemtop : h2.mem r.2.next = r.1 := by rw [hh2]; simp
      have hframe2 : ∀ b, b < r.2.next → h2.mem b = r.2.mem b := by
        intro b hb
        rw [hh2]
        simp [Nat.ne_of_lt hb]
      refine ⟨?_, ?_, ?_⟩
      · rw [closedVal, Bool.and_eq_true, decide_eq_true_eq]
        refine ⟨by rw [hh2]; exact Nat.lt_succ_self _, ?_⟩
        rw [hmemtop]
        exact closedEntries_of_forall _ _ (fun kv hkv =>
          closed_stable fuel r.2 h2 kv.2
            (closedEntries_mem _ _ hent.2.1 kv hkv) hframe2
            (by rw [hh2]; exact Nat.le_succ _))
      · intro x hx
        rw [reachAddrs, hmemtop] at hx
        rcases List.mem_cons.mp hx with rfl | hx
        · exact frameE.1
        · have hre : reachEntries (reachAddrs fuel h2) r.1 =
              reachEntries (reachAddrs fuel r.2) r.1 :=
            reachEntries_congr _ _ _ (fun kv hkv =>
              reach_stable fuel r.2 h2 kv.2
                (closedEntries_mem _ _ hent.2.1 kv hkv) hframe2)
          rw [hre] at hx
          exact hent.2.2 x hx
      · rw [readTree, readTree, hmemtop]
        have hrd : readEntries (readTree fuel h2) r.1 =
            readEntries (readTree fuel r.2) r.1 :=
          readEntries_congr _ _ _ (fun kv hkv =>
            readTree_stable fuel r.2 h2 kv.2
              (closedEntries_mem _ _ hent.2.1 kv hkv) hframe2)
        rw [hrd, hent.1]



/-! ### Space-insensitivity of the data-line tokenizer -/

theorem isHexUp_cases (c : Char) (h : isHexUp c = true) :
    ('0' ≤ c ∧ c ≤ '9') ∨ ('A' ≤ c ∧ c ≤ 'F') := by
  simpa [isHexUp, Bool.or_eq_true, Bool.and_eq_true, decide_eq_true_eq] using h

theorem hex_ne_gt (c : Char) (h : isHexUp c = true) : c ≠ '>' := by
  intro hc; rw [hc] at h; exact absurd h (by decide)

theorem hex_ne_cr (c : Char) (h : isHexUp c = true) : c ≠ '\r' := by
  intro hc; rw [hc] at h; exact absurd h (by decide)

theorem hex_ne_nl (c : Char) (h : isHexUp c = true) : c ≠ '\n' := by
  intro hc; rw [hc] at h; exact absurd h (by decide)

theorem hex_ne_s (c : Char) (h : isHexUp c = true) : c ≠ 'S' := by
  intro hc; rw [hc] at h; exact absurd h (by decide)

theorem hex_ne_space (c : Char) (h : isHexUp c = true) : c ≠ ' ' := by
  intro hc; rw [hc] at h; exact absurd h (by decide)

theorem hex_not_space (c : Char) (h : isHexUp c = true) : pyIsSpace c = false := by
  rw [pyIsSpace,
    decide_eq_false (hex_ne_space c h),
    decide_eq_false (show c ≠ '\t' by intro hc; rw [hc] at h; exact absurd h (by decide)),
    decide_eq_false (hex_ne_nl c h),
    decide_eq_false (hex_ne_cr c h),
    decide_eq_false (show c ≠ '\x0b' by intro hc; rw [hc] at h; exact absurd h (by decide)),
    decide_eq_false (show c ≠ '\x0c' by intro hc; rw [hc] at h; exact absurd h (by decide))]
  rfl

theorem hex_upper_id (c : Char) (h : isHexUp c = true) : pyUpperChar c = c := by
  have hcond : ('a' ≤ c && c ≤ 'z') = false := by
    rcases isHexUp_cases c h with ⟨h1, h2⟩ | ⟨h1, h2⟩ <;>
    · have hna : ¬ ('a' ≤ c) := fun hle => absurd (le_trans hle h2) (by decide)
      simp [hna]
  simp [pyUpperChar, hcond]

theorem hex_hexUpOrSpace (c : Char) (h : isHexUp c = true) :
    isHexUpOrSpace c = true := by
  have h' : (('0' ≤ c && c ≤ '9') || ('A' ≤ c && c ≤ 'F')) = true := h
  rw [isHexUpOrSpace, h']
  rfl

theorem hexTok_shape (t : List Char) (h : HexTok t) :
    ∃ c1 c2, t = [c1, c2] ∧ isHexUp c1 = true ∧ isHexUp c2 = true := by
  obtain ⟨hlen, hall⟩ := h
  cases t with
  | nil => simp at hlen
  | cons c1 t' =>
    cases t' with
    | nil => simp at hlen
    | cons c2 t'' =>
      cases t'' with
      | nil => exact ⟨c1, c2, rfl, hall c1 (by simp), hall c2 (by simp)⟩
      | cons c3 t3 => simp at hlen

theorem spacedOf_head (t : List Char) (ts : List (List Char)) (c1 c2 : Char)
    (ht : t = [c1, c2]) : ∃ l', spacedOf (t :: ts) = c1 :: l' := by
  cases ts with
  | nil => exact ⟨[c2], by simp [spacedOf, ht]⟩
  | cons r rs => exact ⟨c2 :: ' ' :: spacedOf (r :: rs), by simp [spacedOf, ht]⟩

theorem spacedOf_rev_head (ts : List (List Char)) (hne : ts ≠ [])
    (hts : ∀ t ∈ ts, HexTok t) :
    ∃ c l', (spacedOf ts).reverse = c :: l' ∧ isHexUp c = true := by
  induction ts with
  | nil => cases hne rfl
  | cons t rest ih =>
    obtain ⟨c1, c2, rfl, hc1, hc2⟩ := hexTok_shape t (hts _ (by simp))
    cases rest with
    | nil => exact ⟨c2, [c1], by simp [spacedOf], hc2⟩
    | cons r rs =>
      obtain ⟨c, l', hrev, hc⟩ :=
        ih (by simp) (fun t ht => hts t (List.mem_cons_of_mem _ ht))
      refine ⟨c, l' ++ [' ', c2, c1], ?_, hc⟩
      show ([c1, c2] ++ ' ' :: spacedOf (r :: rs)).reverse = c :: (l' ++ [' ', c2, c1])
      rw [List.reverse_append, List.reverse_cons, List.append_assoc, hrev]
      simp

/-- A list whose first and last characters are not whitespace is unchanged
by `str.strip()`. -/
theorem strip_of_ends (l : List Char) (c1 c : Char) (l1 l2 : List Char)
    (h1 : l = c1 :: l1) (h2 : l.reverse = c :: l2)
    (hc1 : pyIsSpace c1 = false) (hc : pyIsSpace c = false) :
    pyStrip l = l := by
  have hd1 : l.dropWhile pyIsSpace = l := by
    rw [h1, List.dropWhile_cons, hc1]
    simp
  have hd2 : l.reverse.dropWhile pyIsSpace = l.reverse := by
    rw [h2, List.dropWhile_cons, hc]
    simp
  rw [pyStrip, hd1, hd2, List.reverse_reverse]

theorem upper_id_hexsp (c : Char) (h : isHexUpOrSpace c = true) :
    pyUpperChar c = c := by
  have hcases : isHexUp c = true ∨ c = ' ' := by
    have h' : (('0' ≤ c && c ≤ '9') || ('A' ≤ c && c ≤ 'F') || c = ' ') = true := h
    rcases (Bool.or_eq_true _ _).mp h' with h'' | h''
    · exact Or.inl h''
    · exact Or.inr (by simpa using h'')
  rcases hcases with h' | rfl
  · exact hex_upper_id c h'
  · decide

theorem hexsp_ne_gt (c : Char) (h : isHexUpOrSpace c = true) : c ≠ '>' := by
  have hcases : isHexUp c = true ∨ c = ' ' := by
    have h' : (('0' ≤ c && c ≤ '9') || ('A' ≤ c && c ≤ 'F') || c = ' ') = true := h
    rcases (Bool.or_eq_true _ _).mp h' with h'' | h''
    · exact Or.inl h''
    · exact Or.inr (by simpa using h'')
  rcases hcases with h' | rfl
  · exact hex_ne_gt c h'
  · decide

theorem hexsp_ne_cr (c : Char) (h : isHexUpOrSpace c = true) : c ≠ '\r' := by
  have hcases : isHexUp c = true ∨ c = ' ' := by
    have h' : (('0' ≤ c && c ≤ '9') || ('A' ≤ c && c ≤ 'F') || c = ' ') = true := h
    rcases (Bool.or_eq_true _ _).mp h' with h'' | h''
    · exact Or.inl h''
    · exact Or.inr (by simpa using h'')
  rcases hcases with h' | rfl
  · exact hex_ne_cr c h'
  · decide

theorem hexsp_ne_nl (c : Char) (h : isHexUpOrSpace c = true) : c ≠ '\n' := by
  have hcases : isHexUp c = true ∨ c = ' ' := by
    have h' : (('0' ≤ c && c ≤ '9') || ('A' ≤ c && c ≤ 'F') || c = ' ') = true := h
    rcases (Bool.or_eq_true _ _).mp h' with h'' | h''
    · exact Or.inl h''
    · exact Or.inr (by simpa using h'')
  rcases hcases with h' | rfl
  · exact hex_ne_nl c h'
  · decide

theorem spacedOf_chars (ts : List (List Char)) (hts : ∀ t ∈ ts, HexTok t) :
    ∀ c ∈ spacedOf ts, isHexUpOrSpace c = true := by
  induction ts with
  | nil => intro c hc; cases hc
  | cons t rest ih =>
    obtain ⟨c1, c2, rfl, hc1, hc2⟩ := hexTok_shape t (hts _ (by simp))
    cases rest with
    | nil =>
      intro c hc
      have hcc : c = c1 ∨ c = c2 := by simpa [spacedOf] using hc
      rcases hcc with rfl | rfl
      · exact hex_hexUpOrSpace _ hc1
      · exact hex_hexUpOrSpace _ hc2
    | cons r rs =>
      intro c hc
      show isHexUpOrSpace c = true
      have hc' : c ∈ [c1, c2] ++ ' ' :: spacedOf (r :: rs) := hc
      rcases List.mem_append.mp hc' with hm | hm
      · have hcc : c = c1 ∨ c = c2 := by simpa using hm
        rcases hcc with rfl | rfl
        · exact hex_hexUpOrSpace _ hc1
        · exact hex_hexUpOrSpace _ hc2
      · rcases List.mem_cons.mp hm with rfl | hm'
        · decide
        · exact ih (fun t ht => hts t (List.mem_cons_of_mem _ ht)) c hm'

theorem flatten_chars (ts : List (List Char)) (hts : ∀ t ∈ ts, HexTok t) :
    ∀ c ∈ ts.flatten, isHexUp c = true := by
  induction ts with
  | nil => intro c hc; cases hc
  | cons t rest ih =>
    intro c hc
    rw [List.flatten_cons] at hc
    rcases List.mem_append.mp hc with hm | hm
    · exact (hts t (by simp)).2 c hm
    · exact ih (fun t ht => hts t (List.mem_cons_of_mem _ ht)) c hm

theorem pySplitWsAux_spaced (ts : List (List Char)) (hne : ts ≠ [])
    (hts : ∀ t ∈ ts, HexTok t) : pySplitWsAux (spacedOf ts) [] = ts := by
  induction ts with
  | nil => cases hne rfl
  | cons t rest ih =>
    obtain ⟨c1, c2, rfl, hc1, hc2⟩ := hexTok_shape t (hts _ (by simp))
    cases rest with
    | nil =>
      show pySplitWsAux [c1, c2] [] = [[c1, c2]]
      simp [pySplitWsAux, hex_not_space _ hc1, hex_not_space _ hc2]
    | cons r rs =>
      have hrest := ih (by simp) (fun t ht => hts t (List.mem_cons_of_mem _ ht))
      show pySplitWsAux ([c1, c2] ++ ' ' :: spacedOf (r :: rs)) [] =
        [c1, c2] :: (r :: rs)
      simp [pySplitWsAux, hex_not_space _ hc1, hex_not_space _ hc2,
        show pyIsSpace ' ' = true from rfl, hrest]

theorem pySplitWs_spaced (ts : List (List Char)) (hne : ts ≠ [])
    (hts : ∀ t ∈ ts, HexTok t) : pySplitWs (spacedOf ts) = ts :=
  pySplitWsAux_spaced ts hne hts

theorem chunkPairs_flatten (ts : List (List Char))
    (hts : ∀ t ∈ ts, HexTok t) : chunkPairs ts.flatten = ts := by
  induction ts with
  | nil => rfl
  | cons t rest ih =>
    obtain ⟨c1, c2, rfl, hc1, hc2⟩ := hexTok_shape t (hts _ (by simp))
    show chunkPairs (c1 :: c2 :: rest.flatten) = [c1, c2] :: rest
    rw [chunkPairs, ih (fun t ht => hts t (List.mem_cons_of_mem _ ht))]

theorem flatten_length (ts : List (List Char)) (hts : ∀ t ∈ ts, HexTok t) :
    ts.flatten.length = 2 * ts.length := by
  induction ts with
  | nil => rfl
  | cons t rest ih =>
    obtain ⟨c1, c2, rfl, hc1, hc2⟩ := hexTok_shape t (hts _ (by simp))
    have := ih (fun t ht => hts t (List.mem_cons_of_mem _ ht))
    simp [List.flatten_cons, this]
    ring

theorem flatten_filter_space (ts : List (List Char))
    (hts : ∀ t ∈ ts, HexTok t) :
    ts.flatten.filter (fun c => c ≠ ' ') = ts.flatten := by
  rw [List.filter_eq_self]
  intro c hc
  simpa using hex_ne_space c (flatten_chars ts hts c hc)

theorem split_hex_pairs_flatten (ts : List (List Char))
    (hts : ∀ t ∈ ts, HexTok t) : split_hex_pairs ts.flatten = ts := by
  rw [split_hex_pairs]
  simp only [flatten_filter_space ts hts, flatten_length ts hts]
  rw [if_neg (by omega)]
  exact chunkPairs_flatten ts hts

theorem flatten_contains_space (ts : List (List Char))
    (hts : ∀ t ∈ ts, HexTok t) : ts.flatten.contains ' ' = false := by
  cases hc : ts.flatten.contains ' '
  · rfl
  · exfalso
    have hmem : ' ' ∈ ts.flatten := by simpa using hc
    exact absurd (flatten_chars ts hts ' ' hmem) (by decide)

theorem spaced_contains_space (t1 t2 : List Char) (rest : List (List Char)) :
    (spacedOf (t1 :: t2 :: rest)).contains ' ' = true := by
  show (t1 ++ ' ' :: spacedOf (t2 :: rest)).contains ' ' = true
  simp

theorem control_not_hex : ∀ l ∈ CONTROL_LINES, l.all isHexUpOrSpace = false := by
  decide

theorem contains_control_false (l : List Char) (hhex : hexLineMatch l = true) :
    CONTROL_LINES.contains l = false := by
  cases hcl : CONTROL_LINES.contains l
  · rfl
  · exfalso
    have hmem : l ∈ CONTROL_LINES := by simpa using hcl
    have h1 := control_not_hex l hmem
    rw [hexLineMatch, Bool.and_eq_true] at hhex
    rw [h1] at hhex
    exact absurd hhex.2 (by simp)

theorem take_ne_searching (l : List Char) (c : Char) (l' : List Char)
    (hl : l = c :: l') (hc : isHexUp c = true) :
    ¬(l.take 9 = "SEARCHING".toList) := by
  intro heq
  rw [hl] at heq
  rw [show "SEARCHING".toList = 'S' :: "EARCHING".toList from rfl] at heq
  rw [List.take_cons (show 0 < 9 by norm_num)] at heq
  injection heq with h1 h2
  exact hex_ne_s c hc h1

theorem strip_no_ws (l : List Char) (h : ∀ c ∈ l, pyIsSpace c = false) :
    pyStrip l = l := by
  have h1 : l.dropWhile pyIsSpace = l := by
    cases l with
    | nil => rfl
    | cons c rest =>
      rw [List.dropWhile_cons, h c (by simp)]
      simp
  have h2 : l.reverse.dropWhile pyIsSpace = l.reverse := by
    cases hrev : l.reverse with
    | nil => rfl
    | cons c rest =>
      have hc : c ∈ l := by
        rw [← List.mem_reverse, hrev]
        simp
      rw [List.dropWhile_cons, h c hc]
      simp
  rw [pyStrip, h1, h2, List.reverse_reverse]

theorem map_upper_id (l : List Char) (h : ∀ c ∈ l, isHexUpOrSpace c = true) :
    l.map pyUpperChar = l := by
  induction l with
  | nil => rfl
  | cons c rest ih =>
    rw [List.map_cons, upper_id_hexsp c (h c (by simp)),
      ih (fun c hc => h c (List.mem_cons_of_mem _ hc))]

theorem filter_gt_id (l : List Char) (h : ∀ c ∈ l, isHexUpOrSpace c = true) :
    l.filter (fun c => c ≠ '>') = l := by
  rw [List.filter_eq_self]
  intro c hc
  simpa using hexsp_ne_gt c (h c hc)

theorem map_crlf_id (l : List Char) (h : ∀ c ∈ l, isHexUpOrSpace c = true) :
    l.map (fun c => if c = '\r' then '\n' else c) = l := by
  induction l with
  | nil => rfl
  | cons c rest ih =>
    rw [List.map_cons, if_neg (hexsp_ne_cr c (h c (by simp))),
      ih (fun c hc => h c (List.mem_cons_of_mem _ hc))]

theorem splitOn_nl_single (l : List Char) (h : ∀ c ∈ l, isHexUpOrSpace c = true) :
    l.splitOn '\n' = [l] := by
  show l.splitOnP (· == '\n') = [l]
  apply List.splitOnP_eq_single
  intro x hx
  simp only [beq_iff_eq]
  exact hexsp_ne_nl x (h x hx)

theorem hexDigitVal_isHexUp (c : Char) (h : isHexUp c = true) :
    ∃ d, hexDigitVal c = some d ∧ d < 16 := by
  rcases isHexUp_cases c h with ⟨h1, h2⟩ | ⟨h1, h2⟩
  · refine ⟨c.toNat - 48, ?_, ?_⟩
    · rw [hexDigitVal, if_pos (by simp [h1, h2])]
    · rw [Char.le_def] at h2
      have h2' : c.toNat ≤ 57 := by exact_mod_cast h2
      omega
  · refine ⟨c.toNat - 55, ?_, ?_⟩
    · have hne : ¬(('0' ≤ c && c ≤ '9') = true) := by
        simp only [Bool.and_eq_true, decide_eq_true_eq, not_and]
        intro _ hcc
        rw [Char.le_def] at h1 hcc
        have ha : 65 ≤ c.toNat := by exact_mod_cast h1
        have hb : c.toNat ≤ 57 := by exact_mod_cast hcc
        omega
      rw [hexDigitVal, if_neg hne, if_pos (by simp [h1, h2])]
    · rw [Char.le_def] at h2
      have h2' : c.toNat ≤ 70 := by exact_mod_cast h2
      omega

theorem hexVal_pair (c1 c2 : Char) (h1 : isHexUp c1 = true)
    (h2 : isHexUp c2 = true) :
    ∃ m, hexVal [c1, c2] = some m ∧ m < 256 := by
  obtain ⟨d1, hd1, hb1⟩ := hexDigitVal_isHexUp c1 h1
  obtain ⟨d2, hd2, hb2⟩ := hexDigitVal_isHexUp c2 h2
  refine ⟨d1 * 16 + d2, ?_, by omega⟩
  show hexValAux [c1, c2] 0 = some (d1 * 16 + d2)
  simp only [hexValAux, hd1, hd2]
  norm_num

set_option maxRecDepth 4096 in
theorem hexVal_fmt02X : ∀ n < 256, hexVal (fmt02X n) = some n := by decide

set_option maxRecDepth 4096 in
theorem fmt02X_len3 : ∀ n < 320, 256 ≤ n → (fmt02X n).length = 3 := by decide

theorem expMode_ne (t : List Char) (m : Nat) (ht : HexTok t)
    (hv : hexVal t = some m) (hm : m < 256) : t ≠ fmt02X (m + 64) := by
  intro heq
  by_cases hlt : m + 64 < 256
  · have hrt := hexVal_fmt02X (m + 64) hlt
    rw [← heq, hv] at hrt
    injection hrt with h
    omega
  · have hlen := fmt02X_len3 (m + 64) (by omega) (by omega)
    rw [← heq, ht.1] at hlen
    omega

theorem hexLine_of_chars (l : List Char) (hne : l ≠ [])
    (h : ∀ c ∈ l, isHexUpOrSpace c = true) : hexLineMatch l = true := by
  rw [hexLineMatch, Bool.and_eq_true]
  constructor
  · cases l with
    | nil => cases hne rfl
    | cons c rest => rfl
  · exact List.all_eq_true.mpr h

theorem lineResult_reduce (expMode expPid cmdUp raw : List Char)
    (hstrip : pyStrip raw = raw)
    (hupper : raw.map pyUpperChar = raw)
    (hfilter : raw.filter (fun c => c ≠ '>') = raw)
    (hempty : raw.isEmpty = false)
    (hcmd : ¬(raw = cmdUp))
    (hsearch : ¬(raw.take 9 = "SEARCHING".toList))
    (hctrl : CONTROL_LINES.contains raw = false)
    (hhex : hexLineMatch raw = true) :
    lineResult expMode expPid cmdUp raw =
      tokenPart expMode expPid (lineTokens raw) := by
  rw [lineResult]
  simp only [hstrip, hupper, hfilter, hempty, hctrl, hhex,
    decide_eq_false hcmd, decide_eq_false hsearch, Bool.or_false,
    Bool.false_or, Bool.not_true, Bool.false_eq_true, if_false]

theorem lineResult_is_cmd (expMode expPid cmdUp raw : List Char)
    (hstrip : pyStrip raw = raw)
    (hupper : raw.map pyUpperChar = raw)
    (hfilter : raw.filter (fun c => c ≠ '>') = raw)
    (hcmd : raw = cmdUp) :
    lineResult expMode expPid cmdUp raw = none := by
  subst hcmd
  rw [lineResult]
  simp only [hstrip, hupper, hfilter]
  simp

theorem parse_single_line (cmd line : List Char) (m : Nat)
    (hm : hexVal (cmd.take 2) = some m)
    (hchars : ∀ c ∈ line, isHexUpOrSpace c = true) :
    parse_pid_bytes cmd line =
      lineResult (fmt02X (m + 64)) (((cmd.drop 2).take 2).map pyUpperChar)
        (cmd.map pyUpperChar) line := by
  rw [parse_pid_bytes, hm, map_crlf_id line hchars, splitOn_nl_single line hchars]
  show List.findSome? (lineResult (fmt02X (m + 64))
      (((cmd.drop 2).take 2).map pyUpperChar) (cmd.map pyUpperChar)) [line] =
    lineResult (fmt02X (m + 64)) (((cmd.drop 2).take 2).map pyUpperChar)
      (cmd.map pyUpperChar) line
  cases hl : lineResult (fmt02X (m + 64)) (((cmd.drop 2).take 2).map pyUpperChar)
      (cmd.map pyUpperChar) line with
  | none =>
    rw [List.findSome?_cons, hl]
    rfl
  | some v =>
    rw [List.findSome?_cons, hl]

theorem cmd_shape (cmd : List Char) (h : cmd.length = 4) :
    ∃ a1 a2 a3 a4, cmd = [a1, a2, a3, a4] := by
  cases cmd with
  | nil => simp at h
  | cons a1 r1 =>
    cases r1 with
    | nil => simp at h
    | cons a2 r2 =>
      cases r2 with
      | nil => simp at h
      | cons a3 r3 =>
        cases r3 with
        | nil => simp at h
        | cons a4 r4 =>
          cases r4 with
          | nil => exact ⟨a1, a2, a3, a4, rfl⟩
          | cons a5 r5 => simp at h

theorem parse_spaced_eq_unspaced (cmd : List Char) (ts : List (List Char))
    (hclen : cmd.length = 4) (hchex : ∀ c ∈ cmd, isHexUp c = true)
    (hts : ∀ t ∈ ts, HexTok t) :
    parse_pid_bytes cmd (spacedOf ts) = parse_pid_bytes cmd ts.flatten := by
  obtain ⟨a1, a2, a3, a4, rfl⟩ := cmd_shape cmd hclen
  have ha1 : isHexUp a1 = true := hchex _ (by simp)
  have ha2 : isHexUp a2 = true := hchex _ (by simp)
  obtain ⟨m, hm, hmlt⟩ := hexVal_pair a1 a2 ha1 ha2
  have hmtake : hexVal (([a1, a2, a3, a4] : List Char).take 2) = some m := hm
  cases ts with
  | nil => rfl
  | cons t rest =>
    cases rest with
    | nil =>
      show parse_pid_bytes _ (spacedOf [t]) = parse_pid_bytes _ ([t] : List (List Char)).flatten
      rw [show spacedOf [t] = t from rfl,
        show ([t] : List (List Char)).flatten = t by simp]
    | cons t2 rest2 =>
      have htsne : (t :: t2 :: rest2 : List (List Char)) ≠ [] := by simp
      obtain ⟨c1, c2, ht12, hc1, hc2⟩ := hexTok_shape t (hts _ (by simp))
      have hch1 : ∀ c ∈ spacedOf (t :: t2 :: rest2), isHexUpOrSpace c = true :=
        spacedOf_chars _ hts
      have hfch : ∀ c ∈ (t :: t2 :: rest2).flatten, isHexUp c = true :=
        flatten_chars _ hts
      have hch2 : ∀ c ∈ (t :: t2 :: rest2).flatten, isHexUpOrSpace c = true :=
        fun c hc => hex_hexUpOrSpace c (hfch c hc)
      rw [parse_single_line _ _ m hmtake hch1, parse_single_line _ _ m hmtake hch2]
      have hcmdUp : ([a1, a2, a3, a4] : List Char).map pyUpperChar = [a1, a2, a3, a4] :=
        map_upper_id _ (fun c hc => hex_hexUpOrSpace c (hchex c hc))
      rw [hcmdUp]
      obtain ⟨l', hl'⟩ := spacedOf_head t (t2 :: rest2) c1 c2 ht12
      obtain ⟨cz, lz, hrev, hcz⟩ := spacedOf_rev_head (t :: t2 :: rest2) htsne hts
      have hstrip1 : pyStrip (spacedOf (t :: t2 :: rest2)) =
          spacedOf (t :: t2 :: rest2) :=
        strip_of_ends _ c1 cz l' lz hl' hrev (hex_not_space _ hc1)
          (hex_not_space _ hcz)
      have hupper1 := map_upper_id _ hch1
      have hfilter1 := filter_gt_id _ hch1
      have hempty1 : (spacedOf (t :: t2 :: rest2)).isEmpty = false := by
        rw [hl']
        rfl
      have hhex1 : hexLineMatch (spacedOf (t :: t2 :: rest2)) = true :=
        hexLine_of_chars _ (by rw [hl']; simp) hch1
      have hctrl1 := contains_control_false _ hhex1
      have hsearch1 : ¬((spacedOf (t :: t2 :: rest2)).take 9 = "SEARCHING".toList) :=
        take_ne_searching _ c1 l' hl' hc1
      have hspace1 := spaced_contains_space t t2 rest2
      have hcmd1 : ¬(spacedOf (t :: t2 :: rest2) = [a1, a2, a3, a4]) := by
        intro heq
        have hcsp : ([a1, a2, a3, a4] : List Char).contains ' ' = true := by
          rw [← heq]
          exact hspace1
        have hsp : (' ' : Char) ∈ [a1, a2, a3, a4] := by simpa using hcsp
        exact absurd (hchex ' ' hsp) (by decide)
      have hstrip2 : pyStrip ((t :: t2 :: rest2).flatten) =
          (t :: t2 :: rest2).flatten :=
        strip_no_ws _ (fun c hc => hex_not_space c (hfch c hc))
      have hupper2 := map_upper_id _ hch2
      have hfilter2 := filter_gt_id _ hch2
      have hflsh : (t :: t2 :: rest2).flatten =
          c1 :: c2 :: (t2 :: rest2).flatten := by
        rw [List.flatten_cons, ht12]
        rfl
      have hempty2 : ((t :: t2 :: rest2).flatten).isEmpty = false := by
        rw [hflsh]
        rfl
      have hhex2 : hexLineMatch ((t :: t2 :: rest2).flatten) = true :=
        hexLine_of_chars _ (by rw [hflsh]; simp) hch2
      have hctrl2 := contains_control_false _ hhex2
      have hsearch2 : ¬(((t :: t2 :: rest2).flatten).take 9 = "SEARCHING".toList) :=
        take_ne_searching _ c1 _ hflsh hc1
      have htok1 : lineTokens (spacedOf (t :: t2 :: rest2)) = t :: t2 :: rest2 := by
        rw [lineTokens, hspace1]
        simp only [if_true]
        exact pySplitWs_spaced _ htsne hts
      have htok2 : lineTokens ((t :: t2 :: rest2).flatten) = t :: t2 :: rest2 := by
        rw [lineTokens, flatten_contains_space _ hts]
        simp only [Bool.false_eq_true, if_false]
        exact split_hex_pairs_flatten _ hts
      by_cases hfc : (t :: t2 :: rest2).flatten = [a1, a2, a3, a4]
      · rw [lineResult_is_cmd _ _ _ _ hstrip2 hupper2 hfilter2 hfc]
        rw [lineResult_reduce _ _ _ _ hstrip1 hupper1 hfilter1 hempty1 hcmd1
          hsearch1 hctrl1 hhex1]
        rw [htok1]
        have hlen := flatten_length (t :: t2 :: rest2) hts
        rw [hfc] at hlen
        have hr20 : rest2.length = 0 := by
          simp only [List.length_cons] at hlen
          simp at hlen
          omega
        have hrest2 : rest2 = [] := List.length_eq_zero.mp hr20
        subst hrest2
        obtain ⟨c3, c4, ht34, hc3, hc4⟩ := hexTok_shape t2 (hts _ (by simp))
        rw [ht12, ht34] at hfc
        simp at hfc
        obtain ⟨hfc1, hfc2, hfc3, hfc4⟩ := hfc
        subst hfc1
        subst hfc2
        subst hfc3
        subst hfc4
        have hvt : hexVal t = some m := by
          rw [ht12]
          exact hm
        have hne := expMode_ne t m (hts t (by simp)) hvt hmlt
        rw [tokenPart, if_neg (by norm_num)]
        rw [if_pos]
        rw [List.headD_cons, decide_eq_false hne]
        rfl
      · rw [lineResult_reduce _ _ _ _ hstrip1 hupper1 hfilter1 hempty1 hcmd1
          hsearch1 hctrl1 hhex1,
          lineResult_reduce _ _ _ _ hstrip2 hupper2 hfilter2 hempty2 hfc
          hsearch2 hctrl2 hhex2,
          htok1, htok2]

/-! ### Claims C4 and C10 -/

/-- C4: `parse_pid_bytes("010C", "41 0C 1A F8\r\r>")` returns the payload
`[0x1A, 0xF8] = [26, 248]`, and the rpm decode rule `(b0*256+b1)/4` applied to
that payload yields `1726.0`. -/
theorem parse_rpm_example :
    parse_pid_bytes "010C".toList "41 0C 1A F8\r\r>".toList = some [26, 248] ∧
    (PID_TABLE.lookup "rpm").map (fun d => d.decoder [26, 248]) = some 1726 := by
  constructor
  · decide
  · have h : PID_TABLE.lookup "rpm" =
        some ⟨"010C".toList, 2, fun d => ((d.headD 0 : ℚ) * 256 + (d.getD 1 0 : ℚ)) / 4⟩ := rfl
    rw [h]
    simp only [Option.map_some']
    norm_num [List.headD, List.getD]

/-- C10: `parse_pid_bytes` can return payload entries larger than one byte:
on command `"010D"` with data line `"41 0D 1AF8"` (spaced, with one
four-digit token) the payload is `[0x1AF8] = [6904] `, which exceeds `255`,
and the one-byte speed decoder consumes it verbatim, yielding `6904.0`. -/
theorem parse_payload_not_bytes :
    parse_pid_bytes "010D".toList "41 0D 1AF8".toList = some [6904] ∧
    255 < 6904 ∧
    (PID_TABLE.lookup "speed_kmh").map (fun d => d.decoder ([6904].take 1)) =
      some 6904 := by
  refine ⟨by decide, by norm_num, ?_⟩
  have h : PID_TABLE.lookup "speed_kmh" =
      some ⟨"010D".toList, 1, fun d => (d.headD 0 : ℚ)⟩ := rfl
  rw [h]
  simp only [Option.map_some']
  norm_num [List.headD, List.getD]

/-! ### Claim C6: frame property of `update_metrics` -/

/-- C6: for every prior store state and a single-key `update_metrics` call,
the mentioned key (when known) takes the new value, every other key keeps its
prior value, unknown keys are ignored without changing the key set, and
`updated_at` is refreshed to the (fresh) call timestamp. -/
theorem update_metrics_single_key
    (s : StoreState) (k : String) (v : Option ℚ) (conn : Bool)
    (err : Option String) (now : Nat)
    (hfresh : ∀ t, s.updated_at = some t → t < now) :
    (k ∈ metricKeys s →
      lookupMetric (update_metrics s [(k, v)] conn err now) k = some v) ∧
    (∀ k', k' ≠ k →
      lookupMetric (update_metrics s [(k, v)] conn err now) k' =
        lookupMetric s k') ∧
    metricKeys (update_metrics s [(k, v)] conn err now) = metricKeys s ∧
    (k ∉ metricKeys s →
      (update_metrics s [(k, v)] conn err now).metrics = s.metrics) ∧
    (update_metrics s [(k, v)] conn err now).updated_at = some now ∧
    (update_metrics s [(k, v)] conn err now).updated_at ≠ s.updated_at := by
  have hm : (update_metrics s [(k, v)] conn err now).metrics =
      setMetric s.metrics k v := rfl
  refine ⟨?_, ?_, ?_, ?_, rfl, ?_⟩
  · intro hk
    rw [lookupMetric, hm]
    exact lookup_setMetric_self _ _ _ hk
  · intro k' hne
    rw [lookupMetric, hm, lookupMetric]
    exact lookup_setMetric_other _ _ _ _ hne
  · rw [metricKeys, hm, metricKeys]
    exact setMetric_keys _ _ _
  · intro hk
    rw [hm]
    exact setMetric_not_mem _ _ _ hk
  · intro hEq
    have h0 : (update_metrics s [(k, v)] conn err now).updated_at = some now := rfl
    rw [hEq] at h0
    exact lt_irrefl now (hfresh now h0)

theorem update_metrics_single_key_witness :
    ("rpm" ∈ metricKeys (initStore "h" 35000) ∧
      lookupMetric
        (update_metrics (initStore "h" 35000) [("rpm", some 3)] true none 1)
        "rpm" = some (some 3)) ∧
    lookupMetric
      (update_metrics (initStore "h" 35000) [("rpm", some 3)] true none 1)
      "speed_kmh" = some none ∧
    metricKeys
      (update_metrics (initStore "h" 35000) [("rpm", some 3)] true none 1) =
      metricKeys (initStore "h" 35000) ∧
    (update_metrics (initStore "h" 35000) [("rpm", some 3)] true none 1).updated_at
      ≠ (initStore "h" 35000).updated_at := by
  have h := update_metrics_single_key (initStore "h" 35000) "rpm" (some 3)
    true none 1 (by intro t ht; simp [initStore] at ht)
  exact ⟨⟨by decide, h.1 (by decide)⟩, h.2.1 "speed_kmh" (by decide),
    h.2.2.1, h.2.2.2.2.2⟩

/-! ### Claim C1: a parse failure is scoped to one metric -/

/-- C1: when `parse_pid_bytes` yields no payload (or a short payload) for one
PID of a live tick, the tick's dict records exactly that metric as `None`,
every other PID still gets its own decoded entry, and the tick is published
through the single `update_metrics` call with `connected=True` and no error —
the tick is never aborted and no reconnect is triggered by a parse failure. -/
theorem tick_parse_failure_scoped
    (s : StoreState) (responses : List Char → List Char) (voltResp : List Char)
    (now : Nat) (k : String) (d : PIDDefinition)
    (hk : (k, d) ∈ PID_TABLE)
    (hfail : ∀ p, parse_pid_bytes d.command (responses d.command) = some p →
      p.length < d.bytes_needed) :
    (runTickMetrics responses voltResp).lookup k = some none ∧
    (∀ k' d', (k', d') ∈ PID_TABLE → k' ≠ k →
      (runTickMetrics responses voltResp).lookup k' =
        some (pidTickValue d' (responses d'.command))) ∧
    (tickPublish s responses voltResp now).connected = true ∧
    (tickPublish s responses voltResp now).last_error = none ∧
    (tickPublish s responses voltResp now).updated_at = some now := by
  have hnd : (PID_TABLE.map Prod.fst).Nodup := by decide
  refine ⟨?_, ?_, rfl, rfl, rfl⟩
  · have h1 : (PID_TABLE.map
        (fun kd => (kd.1, pidTickValue kd.2 (responses kd.2.command)))).lookup k =
        some (pidTickValue d (responses d.command)) :=
      lookup_map_assoc PID_TABLE
        (fun key dd => pidTickValue dd (responses dd.command)) k d hnd hk
    rw [pidTickValue_none d _ hfail] at h1
    exact lookup_append_left _ _ _ _ h1
  · intro k' d' hk' hne
    have h1 : (PID_TABLE.map
        (fun kd => (kd.1, pidTickValue kd.2 (responses kd.2.command)))).lookup k' =
        some (pidTickValue d' (responses d'.command)) :=
      lookup_map_assoc PID_TABLE
        (fun key dd => pidTickValue dd (responses dd.command)) k' d' hnd hk'
    exact lookup_append_left _ _ _ _ h1

theorem tick_parse_failure_scoped_witness :
    (runTickMetrics wResponses "12.6\r>".toList).lookup "rpm" = some none ∧
    (tickPublish (initStore "h" 1) wResponses "12.6\r>".toList 7).connected =
      true := by
  have h := tick_parse_failure_scoped (initStore "h" 1) wResponses
    "12.6\r>".toList 7 "rpm" rpmDef (List.Mem.head _)
    (by
      intro p hp
      rw [show parse_pid_bytes rpmDef.command (wResponses rpmDef.command) =
        none from by decide] at hp
      cases hp)
  exact ⟨h.1, h.2.2.1⟩

/-! ### Claim C2: value retention across a failed parse -/

/-- C2 counterexample: a metric key whose PID fails to parse during a tick
with the connection up does NOT retain its previous good value — the tick
explicitly overwrites it with `None`.  Concretely: the store knows
`rpm = 1726.0`, a tick in which every request answers `NO DATA` publishes
with `connected=True`, and afterwards `rpm` is absent. -/
theorem tick_failure_overwrites_value :
    lookupMetric
      (update_metrics (initStore "h" 1) [("rpm", some 1726)] true none 1)
      "rpm" = some (some 1726) ∧
    (tickPublish
      (update_metrics (initStore "h" 1) [("rpm", some 1726)] true none 1)
      (fun _ => "NO DATA\r>".toList) "ERROR".toList 2).connected = true ∧
    lookupMetric
      (tickPublish
        (update_metrics (initStore "h" 1) [("rpm", some 1726)] true none 1)
        (fun _ => "NO DATA\r>".toList) "ERROR".toList 2)
      "rpm" = some none := by
  decide

/-- C2 amended: a metric key whose PID fails to parse during a tick with the
connection up is explicitly set to absent for that tick (its previous value
is overwritten with `None`); connection loss is signalled through
`set_connected(False, error)`, which does not modify the metric values. -/
theorem tick_parse_failure_sets_absent
    (s : StoreState) (responses : List Char → List Char) (voltResp : List Char)
    (now now' : Nat) (k : String) (d : PIDDefinition) (err : Option String)
    (hkeys : metricKeys s = METRIC_KEYS)
    (hk : (k, d) ∈ PID_TABLE)
    (hfail : ∀ p, parse_pid_bytes d.command (responses d.command) = some p →
      p.length < d.bytes_needed) :
    lookupMetric (tickPublish s responses voltResp now) k = some none ∧
    (set_connected s false err now').metrics = s.metrics := by
  constructor
  · have hnone : (k, (none : Option ℚ)) ∈ runTickMetrics responses voltResp := by
      have hmem : (k, pidTickValue d (responses d.command)) ∈
          PID_TABLE.map (fun kd => (kd.1, pidTickValue kd.2 (responses kd.2.command))) :=
        List.mem_map_of_mem _ hk
      rw [pidTickValue_none d _ hfail] at hmem
      exact List.mem_append_left _ hmem
    have hnd : ((runTickMetrics responses voltResp).map Prod.fst).Nodup := by
      rw [runTickMetrics_keys]
      decide
    have hkmem : k ∈ s.metrics.map Prod.fst := by
      rw [← metricKeys, hkeys, METRIC_KEYS]
      exact List.mem_append_left _ (List.mem_map_of_mem Prod.fst hk)
    exact lookup_foldl_setMetric _ _ _ _ hnone hnd hkmem
  · rfl

theorem tick_parse_failure_sets_absent_witness :
    lookupMetric
      (tickPublish
        (update_metrics (initStore "h" 1) [("rpm", some 1726)] true none 1)
        wResponses "12.6\r>".toList 2)
      "rpm" = some none ∧
    (set_connected
      (update_metrics (initStore "h" 1) [("rpm", some 1726)] true none 1)
      false (some "boom") 3).metrics =
      (update_metrics (initStore "h" 1) [("rpm", some 1726)] true none 1).metrics := by
  have h := tick_parse_failure_sets_absent
    (update_metrics (initStore "h" 1) [("rpm", some 1726)] true none 1)
    wResponses "12.6\r>".toList 2 3 "rpm" rpmDef (some "boom")
    (by decide) (List.Mem.head _)
    (by
      intro p hp
      rw [show parse_pid_bytes rpmDef.command (wResponses rpmDef.command) =
        none from by decide] at hp
      cases hp)
  exact h

/-! ### Claim C8: simulated metrics stay inside their clamps -/

/-- C8: in simulation mode, for any synthetic clock value, any sine samples
and any jitter drawn from the stated `random.uniform` ranges, every generated
metric lies within its declared clamp range — speed in `[0,220]`, rpm in
`[700,7000]`, coolant in `[65,110]`, throttle / engine load / fuel within
`[0,100]`, intake in `[10,55]`, voltage in `[12.1,14.4]` — including after
rounding. -/
theorem sim_metrics_within_clamps (t : ℚ) (u : SimSample)
    (hs1 : -1 ≤ u.sinT ∧ u.sinT ≤ 1) (hs2 : -1 ≤ u.sinT02 ∧ u.sinT02 ≤ 1)
    (hs3 : -1 ≤ u.sinT04 ∧ u.sinT04 ≤ 1) (hs4 : -1 ≤ u.sinT035 ∧ u.sinT035 ≤ 1)
    (hj1 : -(5/2) ≤ u.jSpeed ∧ u.jSpeed ≤ 5/2)
    (hj2 : -70 ≤ u.jRpm ∧ u.jRpm ≤ 70)
    (hj3 : -4 ≤ u.jLoad ∧ u.jLoad ≤ 4)
    (hj4 : -(7/2) ≤ u.jThrottle ∧ u.jThrottle ≤ 7/2)
    (hj5 : -(3/5) ≤ u.jCoolant ∧ u.jCoolant ≤ 3/5)
    (hj6 : -(3/2) ≤ u.jIntake ∧ u.jIntake ≤ 3/2) :
    (0 ≤ pyRound 1 (simSpeed u) ∧ pyRound 1 (simSpeed u) ≤ 220) ∧
    (700 ≤ pyRound 1 (simRpm u) ∧ pyRound 1 (simRpm u) ≤ 7000) ∧
    (65 ≤ pyRound 1 (simCoolant u) ∧ pyRound 1 (simCoolant u) ≤ 110) ∧
    (0 ≤ pyRound 1 (simThrottle u) ∧ pyRound 1 (simThrottle u) ≤ 100) ∧
    (0 ≤ pyRound 1 (simLoad u) ∧ pyRound 1 (simLoad u) ≤ 100) ∧
    (0 ≤ pyRound 1 (simFuel t) ∧ pyRound 1 (simFuel t) ≤ 100) ∧
    (10 ≤ pyRound 1 (simIntake u) ∧ pyRound 1 (simIntake u) ≤ 55) ∧
    (121/10 ≤ pyRound 2 (simVoltage u) ∧ pyRound 2 (simVoltage u) ≤ 144/10) := by
  have hspeed := pyRound_clamp_mem 1 0 220 (70 + u.sinT * 45 + u.jSpeed)
    0 2200 (by norm_num) (by norm_num) (by norm_num)
  have hrpm := pyRound_clamp_mem 1 700 7000 (900 + simSpeed u * 34 + u.jRpm)
    7000 70000 (by norm_num) (by norm_num) (by norm_num)
  have hcool := pyRound_clamp_mem 1 65 110 (88 + u.sinT02 * 6 + u.jCoolant)
    650 1100 (by norm_num) (by norm_num) (by norm_num)
  have hthr := pyRound_clamp_mem 1 2 100 ((simSpeed u / 220) * 90 + u.jThrottle)
    20 1000 (by norm_num) (by norm_num) (by norm_num)
  have hload := pyRound_clamp_mem 1 4 100 ((simRpm u / 7000) * 100 + u.jLoad)
    40 1000 (by norm_num) (by norm_num) (by norm_num)
  have hfuel := pyRound_clamp_mem 1 5 100 (78 - t * (5/100))
    50 1000 (by norm_num) (by norm_num) (by norm_num)
  have hint := pyRound_clamp_mem 1 10 55 (25 + u.sinT04 * 9 + u.jIntake)
    100 550 (by norm_num) (by norm_num) (by norm_num)
  have hvolt := pyRound_clamp_mem 2 (121/10) (144/10)
    (132/10 + u.sinT035 * (5/10)) 1210 1440
    (by norm_num) (by norm_num) (by norm_num)
  exact ⟨hspeed, hrpm, hcool,
    ⟨le_trans (show (0:ℚ) ≤ 2 by norm_num) hthr.1, hthr.2⟩,
    ⟨le_trans (show (0:ℚ) ≤ 4 by norm_num) hload.1, hload.2⟩,
    ⟨le_trans (show (0:ℚ) ≤ 5 by norm_num) hfuel.1, hfuel.2⟩,
    hint, hvolt⟩

theorem sim_metrics_within_clamps_witness :
    (0 ≤ pyRound 1 (simSpeed (SimSample.mk 0 0 0 0 0 0 0 0 0 0)) ∧
      pyRound 1 (simSpeed (SimSample.mk 0 0 0 0 0 0 0 0 0 0)) ≤ 220) ∧
    (700 ≤ pyRound 1 (simRpm (SimSample.mk 0 0 0 0 0 0 0 0 0 0)) ∧
      pyRound 1 (simRpm (SimSample.mk 0 0 0 0 0 0 0 0 0 0)) ≤ 7000) ∧
    (65 ≤ pyRound 1 (simCoolant (SimSample.mk 0 0 0 0 0 0 0 0 0 0)) ∧
      pyRound 1 (simCoolant (SimSample.mk 0 0 0 0 0 0 0 0 0 0)) ≤ 110) ∧
    (0 ≤ pyRound 1 (simThrottle (SimSample.mk 0 0 0 0 0 0 0 0 0 0)) ∧
      pyRound 1 (simThrottle (SimSample.mk 0 0 0 0 0 0 0 0 0 0)) ≤ 100) ∧
    (0 ≤ pyRound 1 (simLoad (SimSample.mk 0 0 0 0 0 0 0 0 0 0)) ∧
      pyRound 1 (simLoad (SimSample.mk 0 0 0 0 0 0 0 0 0 0)) ≤ 100) ∧
    (0 ≤ pyRound 1 (simFuel (3/20)) ∧ pyRound 1 (simFuel (3/20)) ≤ 100) ∧
    (10 ≤ pyRound 1 (simIntake (SimSample.mk 0 0 0 0 0 0 0 0 0 0)) ∧
      pyRound 1 (simIntake (SimSample.mk 0 0 0 0 0 0 0 0 0 0)) ≤ 55) ∧
    (121/10 ≤ pyRound 2 (simVoltage (SimSample.mk 0 0 0 0 0 0 0 0 0 0)) ∧
      pyRound 2 (simVoltage (SimSample.mk 0 0 0 0 0 0 0 0 0 0)) ≤ 144/10) :=
  sim_metrics_within_clamps (3/20) (SimSample.mk 0 0 0 0 0 0 0 0 0 0)
    (by norm_num) (by norm_num) (by norm_num) (by norm_num) (by norm_num)
    (by norm_num) (by norm_num) (by norm_num) (by norm_num) (by norm_num)

/-! ### Claim C9: configuration parse failures fall back to defaults -/

/-- C9: for every configuration name with a documented default, when the
environment supplies a value that fails to parse as the expected numeric or
boolean type, the reader returns the documented default (`_read_bool` parses
a value as `True` exactly when it is in the truthy set, so a value that is
not parseable as boolean yields `False`, the documented default of
`SIMULATE`); no reader can raise, as all are total functions. -/
theorem config_parse_failure_defaults (env : String → Option (List Char))
    (hport : ∀ v, env "OBD_PORT" = some v → pyParseInt v = none)
    (hpoll : ∀ v, env "POLL_INTERVAL" = some v → pyParseFloat v = none)
    (hrec : ∀ v, env "RECONNECT_DELAY" = some v → pyParseFloat v = none)
    (hhttp : ∀ v, env "HTTP_PORT" = some v → pyParseInt v = none)
    (hsim : ∀ v, env "SIMULATE" = some v →
      TRUTHY.contains ((pyStrip v).map pyLowerChar) = false) :
    (load_settings env).obd_port = 35000 ∧
    (load_settings env).poll_interval = PyFloat.finite (40/100) ∧
    (load_settings env).reconnect_delay = PyFloat.finite 3 ∧
    (load_settings env).http_port = 8080 ∧
    (load_settings env).simulate = false := by
  refine ⟨?_, ?_, ?_, ?_, ?_⟩
  · show read_int env "OBD_PORT" 35000 = 35000
    cases hv : env "OBD_PORT" with
    | none => simp [read_int, hv]
    | some v => simp [read_int, hv, hport v hv]
  · show read_float env "POLL_INTERVAL" (PyFloat.finite (40/100)) =
      PyFloat.finite (40/100)
    cases hv : env "POLL_INTERVAL" with
    | none => simp [read_float, hv]
    | some v => simp [read_float, hv, hpoll v hv]
  · show read_float env "RECONNECT_DELAY" (PyFloat.finite 3) = PyFloat.finite 3
    cases hv : env "RECONNECT_DELAY" with
    | none => simp [read_float, hv]
    | some v => simp [read_float, hv, hrec v hv]
  · show read_int env "HTTP_PORT" 8080 = 8080
    cases hv : env "HTTP_PORT" with
    | none => simp [read_int, hv]
    | some v => simp [read_int, hv, hhttp v hv]
  · show read_bool env "SIMULATE" false = false
    cases hv : env "SIMULATE" with
    | none => simp [read_bool, hv]
    | some v =>
      simp only [read_bool, hv]
      exact hsim v hv

theorem config_parse_failure_defaults_witness :
    (load_settings (fun _ => some "garbage".toList)).obd_port = 35000 ∧
    (load_settings (fun _ => some "garbage".toList)).poll_interval =
      PyFloat.finite (40/100) ∧
    (load_settings (fun _ => some "garbage".toList)).reconnect_delay =
      PyFloat.finite 3 ∧
    (load_settings (fun _ => some "garbage".toList)).http_port = 8080 ∧
    (load_settings (fun _ => some "garbage".toList)).simulate = false :=
  config_parse_failure_defaults (fun _ => some "garbage".toList)
    (fun v hv => by cases hv; decide)
    (fun v hv => by cases hv; decide)
    (fun v hv => by cases hv; decide)
    (fun v hv => by cases hv; decide)
    (fun v hv => by cases hv; decide)

/-! ### Claim C3: failure cases of `ELM327Client.send` -/

/-- C3: `send(command)` fails with a connection error in exactly these cases —
called before `connect()` (no writer), the peer closes the socket (a
zero-length read), or the read timeout elapses before the prompt `>` appears
in the accumulated text; otherwise it returns the accumulated decoded text
(every decoded chunk up to and including the one containing the prompt). -/
theorem elm_send_spec (connected : Bool) (command : List Char)
    (events : List ReadEvent) :
    (connected = false → send connected command events = .error .notConnected) ∧
    (connected = true → ∀ s,
      (send connected command events = .ok s ↔ OkSpec events s)) ∧
    (connected = true →
      (send connected command events = .error .closedByPeer ↔
        ClosedSpec events)) ∧
    (connected = true →
      (send connected command events = .error .readTimeout ↔
        TimeoutSpec events)) := by
  refine ⟨?_, ?_, ?_, ?_⟩ <;> intro hc
  · simp [send, hc]
  · intro s
    rw [send, if_pos (by rw [hc])]
    exact rup_ok_iff events s
  · rw [send, if_pos (by rw [hc])]
    exact rup_closed_iff events
  · rw [send, if_pos (by rw [hc])]
    exact rup_timeout_iff events

theorem elm_send_spec_witness :
    send false "010C".toList [ReadEvent.chunk [52, 49], ReadEvent.chunk [62]] =
      .error .notConnected ∧
    send true "010C".toList [ReadEvent.chunk [52, 49], ReadEvent.chunk [62]] =
      .ok "41>".toList ∧
    send true "010C".toList [ReadEvent.chunk [52, 49], ReadEvent.timeout] =
      .error .readTimeout := by
  have h1 := elm_send_spec false "010C".toList
    [ReadEvent.chunk [52, 49], ReadEvent.chunk [62]]
  have h2 := elm_send_spec true "010C".toList
    [ReadEvent.chunk [52, 49], ReadEvent.chunk [62]]
  have h3 := elm_send_spec true "010C".toList
    [ReadEvent.chunk [52, 49], ReadEvent.timeout]
  refine ⟨h1.1 rfl, (h2.2.1 rfl "41>".toList).mpr ?_, (h3.2.2.2 rfl).mpr ?_⟩
  · exact ⟨[ReadEvent.chunk [52, 49]], [62], [], by decide, by decide,
      by decide, by decide, by decide⟩
  · exact Or.inr ⟨[ReadEvent.chunk [52, 49]], [], by decide, by decide⟩

/-! ### Claim C7: `snapshot()` returns an independent deep copy -/

/-- C7: `snapshot()` returns a fully independent deep copy: the copy reads
back equal to the store's state, taking it does not disturb any existing
object, and mutating any object reachable from the returned copy changes
neither the store's view of its root nor the value a later `snapshot()` call
returns. -/
theorem snapshot_independent (fuel : Nat) (h : Heap) (root : PyVal)
    (hcl : closedVal fuel h root = true) :
    (∀ b, b < h.next → (snapshot fuel h root).2.mem b = h.mem b) ∧
    readTree fuel (snapshot fuel h root).2 (snapshot fuel h root).1 =
      readTree fuel h root ∧
    ∀ b ∈ reachAddrs fuel (snapshot fuel h root).2 (snapshot fuel h root).1,
      ∀ entries,
        readTree fuel (mutateObj (snapshot fuel h root).2 b entries) root =
          readTree fuel h root ∧
        readTree fuel
          (snapshot fuel (mutateObj (snapshot fuel h root).2 b entries) root).2
          (snapshot fuel (mutateObj (snapshot fuel h root).2 b entries) root).1 =
          readTree fuel h root := by
  have hspec := deepcopy_spec fuel h root hcl
  have hframe := deepcopyVal_frame fuel h root
  refine ⟨hframe.2, hspec.2.2, ?_⟩
  intro b hb entries
  have hbge : h.next ≤ b := hspec.2.1 b hb
  have hagree : ∀ a, a < h.next →
      (mutateObj (snapshot fuel h root).2 b entries).mem a = h.mem a := by
    intro a ha
    have hne : a ≠ b := Nat.ne_of_lt (lt_of_lt_of_le ha hbge)
    show (if a = b then entries else (snapshot fuel h root).2.mem a) = h.mem a
    rw [if_neg hne]
    exact hframe.2 a ha
  have h1 : readTree fuel (mutateObj (snapshot fuel h root).2 b entries) root =
      readTree fuel h root :=
    readTree_stable fuel h _ root hcl hagree
  refine ⟨h1, ?_⟩
  have hclmut : closedVal fuel (mutateObj (snapshot fuel h root).2 b entries)
      root = true :=
    closed_stable fuel h _ root hcl hagree hframe.1
  have hspec2 := deepcopy_spec fuel _ root hclmut
  exact hspec2.2.2.trans h1

theorem snapshot_independent_witness :
    closedVal 3 storeHeap (.ref 0) = true ∧
    3 ∈ reachAddrs 3 (snapshot 3 storeHeap (.ref 0)).2
      (snapshot 3 storeHeap (.ref 0)).1 ∧
    readTree 3 (mutateObj (snapshot 3 storeHeap (.ref 0)).2 3
        [("host", .prim (.strV "changed"))]) (.ref 0) =
      readTree 3 storeHeap (.ref 0) := by
  have h := snapshot_independent 3 storeHeap (.ref 0) (by decide)
  exact ⟨by decide, by decide,
    (h.2.2 3 (by decide) [("host", .prim (.strV "changed"))]).1⟩



/-! ### Claim C5: spaced and unspaced data lines parse identically -/

/-- C5: `parse_pid_bytes` returns the same result for a space-separated hex
data line (a sequence of two-digit byte tokens) and for its unspaced form
obtained by concatenating the same byte pairs; in particular
`parse_pid_bytes("010C", "41 0C 1A F8>")` equals
`parse_pid_bytes("010C", "410C1AF8>")`. -/
theorem parse_pid_bytes_space_insensitive (cmd : List Char)
    (ts : List (List Char)) (hclen : cmd.length = 4)
    (hchex : ∀ c ∈ cmd, isHexUp c = true) (hts : ∀ t ∈ ts, HexTok t) :
    parse_pid_bytes cmd (spacedOf ts) = parse_pid_bytes cmd ts.flatten ∧
    parse_pid_bytes "010C".toList "41 0C 1A F8>".toList =
      parse_pid_bytes "010C".toList "410C1AF8>".toList := by
  refine ⟨parse_spaced_eq_unspaced cmd ts hclen hchex hts, ?_⟩
  decide

theorem parse_pid_bytes_space_insensitive_witness :
    (parse_pid_bytes "010C".toList
        (spacedOf [['4','1'], ['0','C'], ['1','A'], ['F','8']]) =
      parse_pid_bytes "010C".toList
        ([['4','1'], ['0','C'], ['1','A'], ['F','8']] : List (List Char)).flatten) ∧
    parse_pid_bytes "010C".toList "41 0C 1A F8>".toList =
      parse_pid_bytes "010C".toList "410C1AF8>".toList :=
  parse_pid_bytes_space_insensitive "010C".toList
    [['4','1'], ['0','C'], ['1','A'], ['F','8']]
    (by decide) (by decide)
    (by intro t ht; fin_cases ht <;> exact ⟨rfl, by decide⟩)

end Tacho
